import Mathlib

/-!
# BFS user file-system API (`fs.c`)

A shallow embedding of `fsSeek`, `fsTell`, `fsSize`, `fsRead`, `fsWrite`, `fsOpen` and
`fsCreate` of `fs.c`, followed by theorems about them.

* `i32` values are integers; every arithmetic operation of the C code is followed by the
  reduction `wrap32` to the two's-complement range.
* The global open-file table `g_oft`, the inode metadata (file sizes, FBN to DBN map) and
  the disk are fields of the state `FS`.
* `bfs.h`, `bfs.c` and `bio.c` are not part of the sources.  What `fs.c` uses of them is
  either a field of `Bfs` (a parameter) or a definition modelled from the specification.
* `FATAL(code)` aborts the process: the result `Result.fatal code st` keeps the state at
  the abort.
-/

namespace Fs

/-! ## 32-bit signed integers -/

/-- Least `i32` value. -/
def I32_MIN : Int := -2147483648

/-- Greatest `i32` value. -/
def I32_MAX : Int := 2147483647

/-- Reduction of an integer to the two's-complement range of `i32`. -/
def wrap32 (x : Int) : Int := (x + 2147483648) % 4294967296 - 2147483648

/-- The `i32` sum `a + b`. -/
def add32 (a b : Int) : Int := wrap32 (a + b)

/-- The `i32` difference `a - b`. -/
def sub32 (a b : Int) : Int := wrap32 (a - b)

/-- The `i32` product `a * b`. -/
def mul32 (a b : Int) : Int := wrap32 (a * b)

/-- The `i32` quotient `a / b`; C division truncates toward zero. -/
def div32 (a b : Int) : Int := wrap32 (Int.tdiv a b)

/-! ## State -/

/-- A byte array addressed from its first byte: index to byte. Used for the caller's
buffer `buf`, for the scratch block `bioBuff` and for the blocks of the disk. -/
abbrev Bytes := Int → Int

/-- Calls of the collaborators that change or read the inode allocation and the disk. -/
inductive Event where
  | bfsExtend (inum fbn : Int)
  | bfsSetSize (inum size : Int)
  | bfsFbnToDbn (inum fbn : Int)
  | bfsRead (inum fbn : Int)
  | bioWrite (dbn : Int)
  deriving DecidableEq

/-- The locals of one pass through the block loop of `fsRead` or `fsWrite`:
`currFBN`, the physical block behind it, `startBuff`, `endBuff`, the caller-buffer
offset `currCursor - cursor`, and `bioBuff` as `bfsRead` delivered it (`blkIn`) and at
the end of the pass (`blkOut`). -/
structure Iter where
  fbn : Int
  dbn : Int
  startBuff : Int
  endBuff : Int
  off : Int
  blkIn : Bytes
  blkOut : Bytes

/-- An entry of the open-file table `g_oft`. -/
structure OFTE where
  inum : Int
  curs : Int

/-- The state `fs.c` works on. `log` and `iters` are ghost fields: the collaborator
calls made and the loop passes executed so far, oldest first. -/
structure FS where
  g_oft : Int → OFTE
  size : Int → Int
  dbn : Int → Int → Int
  disk : Int → Bytes
  log : List Event
  iters : List Iter

/-- The parts of `bfs.h` and `bfs.c` that `fs.c` uses and the specification leaves open:
the block size, the descriptor registry lookups (fixed while `fsSeek`, `fsRead`,
`fsWrite` run, none of which opens or closes a descriptor) and the allocation policy of
`bfsExtend`, which maps the FBN to DBN map and the disk to new ones. A failing
extension is fatal inside the collaborator; the calls described here are those in which
`bfsExtend` returns. -/
structure Bfs where
  BYTESPERBLOCK : Int
  bfsFdToInum : Int → Int
  bfsFindOFTE : Int → Int
  bfsExtend : (Int → Int → Int) → (Int → Bytes) → Int → Int →
    (Int → Int → Int) × (Int → Bytes)

/-- Modelled from the spec: the macro `FATAL` and its codes are in `bfs.h`, not in the
sources; a fatal error terminates the program (section 7 of the specification). These
are the two codes `fs.c` passes to `FATAL` in `fsSeek`. -/
inductive Err where
  | EBADCURS
  | EBADWHENCE
  deriving DecidableEq

/-- Outcome of a call: a normal return with a value, an abort through `FATAL`, a
`memcpy` outside its objects (negative length, or a window outside the scratch block:
undefined behaviour in C), or a block loop that does not terminate. Each carries the
state reached. -/
inductive Result (α : Type) where
  | ok (val : α) (st : FS)
  | fatal (code : Err) (st : FS)
  | fault (st : FS)
  | loops (st : FS)

/-- The state an outcome carries. -/
def Result.state {α : Type} : Result α → FS
  | .ok _ st => st
  | .fatal _ st => st
  | .fault st => st
  | .loops st => st

/-- The value of a normal return. -/
def Result.val? {α : Type} : Result α → Option α
  | .ok v _ => some v
  | _ => none

/-- The code of an abort through `FATAL`. -/
def Result.fatal? {α : Type} : Result α → Option Err
  | .fatal c _ => some c
  | _ => none

/-- Whether the outcome is a `memcpy` outside its objects. -/
def Result.isFault {α : Type} : Result α → Bool
  | .fault _ => true
  | _ => false

/-- Sequencing: the rest of the function runs only after a normal return. -/
def Result.andThen {α β : Type} (r : Result α) (f : α → FS → Result β) : Result β :=
  match r with
  | .ok v st => f v st
  | .fatal c st => .fatal c st
  | .fault st => .fault st
  | .loops st => .loops st

/-! ## Collaborators -/

/-- Value of `SEEK_SET` in `stdio.h`. -/
def SEEK_SET : Int := 0

/-- Value of `SEEK_CUR` in `stdio.h`. -/
def SEEK_CUR : Int := 1

/-- Value of `SEEK_END` in `stdio.h`. -/
def SEEK_END : Int := 2

/-- Modelled from the spec: `bfsGetSize` is not in the sources; `size-of(inode)` reports
the file size kept in the inode metadata. -/
def bfsGetSize (st : FS) (inum : Int) : Int := st.size inum

/-- Modelled from the spec: `bfsSetSize` is not in the sources; `set-size(inode, n)`
stores the file size in the inode metadata. -/
def bfsSetSize (st : FS) (inum size : Int) : FS :=
  { st with
    size := fun i => if i = inum then size else st.size i
    log := st.log ++ [Event.bfsSetSize inum size] }

/-- Modelled from the spec: `bfsTell` is not in the sources; `tell(descriptor)` is the
cursor of the descriptor's open-file-table entry, the entry `fsSeek` updates. -/
def bfsTell (E : Bfs) (st : FS) (fd : Int) : Int :=
  (st.g_oft (E.bfsFindOFTE (E.bfsFdToInum fd))).curs

/-- Modelled from the spec: `bfsFbnToDbn` is not in the sources; `fbn-to-dbn(inode, fbn)`
translates a file block number to the disk block number of the inode's allocation. -/
def bfsFbnToDbn (st : FS) (inum fbn : Int) : Int × FS :=
  (st.dbn inum fbn, { st with log := st.log ++ [Event.bfsFbnToDbn inum fbn] })

/-- Modelled from the spec: `bfsRead` is not in the sources; it delivers the whole block
stored at `bfsFbnToDbn(inum, fbn)`. -/
def bfsRead (st : FS) (inum fbn : Int) : Bytes × FS :=
  (st.disk (st.dbn inum fbn), { st with log := st.log ++ [Event.bfsRead inum fbn] })

/-- Modelled from the spec: `bioWrite` is not in the sources; `write-block(dbn, buf)`
stores the block `buf` at disk block `dbn`. -/
def bioWrite (st : FS) (dbn : Int) (blk : Bytes) : FS :=
  { st with
    disk := fun d => if d = dbn then blk else st.disk d
    log := st.log ++ [Event.bioWrite dbn] }

/-- The call `bfsExtend(inum, fbn)`: the allocation policy `E.bfsExtend` applied to the
FBN to DBN map and the disk. -/
def bfsExtend (E : Bfs) (st : FS) (inum fbn : Int) : FS :=
  { st with
    dbn := (E.bfsExtend st.dbn st.disk inum fbn).1
    disk := (E.bfsExtend st.dbn st.disk inum fbn).2
    log := st.log ++ [Event.bfsExtend inum fbn] }

/-- The C library call `memcpy(dst + d, src + s, n)` for `0 ≤ n`: the `n` bytes of `src`
from index `s` on replace the bytes of `dst` from index `d` on. -/
def memcpy (dst : Bytes) (d : Int) (src : Bytes) (s n : Int) : Bytes :=
  fun i => if d ≤ i ∧ i < d + n then src (s + (i - d)) else dst i

/-! ## fs.c -/

/-- The function `fsSize(fd)`. -/
def fsSize (E : Bfs) (st : FS) (fd : Int) : Int :=
  bfsGetSize st (E.bfsFdToInum fd)

/-- The function `fsTell(fd)`. -/
def fsTell (E : Bfs) (st : FS) (fd : Int) : Int :=
  bfsTell E st fd

/-- The assignment `g_oft[ofte].curs = v`. -/
def setCurs (st : FS) (ofte v : Int) : FS :=
  { st with
    g_oft := fun i => if i = ofte then { inum := (st.g_oft i).inum, curs := v }
                      else st.g_oft i }

/-- The function `fsSeek(fd, offset, whence)`. -/
def fsSeek (E : Bfs) (st : FS) (fd offset whence : Int) : Result Int :=
  if offset < 0 then Result.fatal Err.EBADCURS st
  else
    let inum := E.bfsFdToInum fd
    let ofte := E.bfsFindOFTE inum
    if whence = SEEK_SET then
      Result.ok 0 (setCurs st ofte offset)
    else if whence = SEEK_CUR then
      Result.ok 0 (setCurs st ofte (add32 (st.g_oft ofte).curs offset))
    else if whence = SEEK_END then
      Result.ok 0 (setCurs st ofte (add32 (fsSize E st fd) offset))
    else Result.fatal Err.EBADWHENCE st

/-- The value of `endBuff` in a pass of the block loop (the same expression in `fsRead`
and `fsWrite`). -/
def endBuffOf (BYTESPERBLOCK cursor numb currFBN currCursor startBuff : Int) : Int :=
  if add32 currCursor (sub32 numb (sub32 currCursor cursor)) >
      mul32 (add32 currFBN 1) BYTESPERBLOCK
  then BYTESPERBLOCK
  else add32 (sub32 numb (sub32 currCursor cursor)) startBuff

/-- The `while (currFBN <= lastFBN)` loop of `fsRead`. The argument `fuel` bounds the
number of passes: the caller gives `lastFBN - currFBN + 1`, the number of passes the C
loop makes unless `currFBN++` wraps at `I32_MAX`, in which case `currFBN <= lastFBN`
holds forever; that case is the outcome `Result.loops`. A `memcpy` whose length is
negative (a huge `size_t`), whose window leaves the scratch block `bioBuff`, or which
starts before the caller's buffer is the outcome `Result.fault`. -/
def fsReadLoop (E : Bfs) (inum cursor numb lastFBN : Int) (fuel : Nat)
    (currFBN currCursor : Int) (st : FS) (buf : Bytes) : Result Bytes :=
    if currFBN ≤ lastFBN then
      match fuel with
      | 0 => Result.loops st
      | k + 1 =>
        let r := bfsRead st inum currFBN
        let bioBuff := r.1
        let startBuff := sub32 currCursor (mul32 currFBN E.BYTESPERBLOCK)
        let endBuff := endBuffOf E.BYTESPERBLOCK cursor numb currFBN currCursor startBuff
        let off := sub32 currCursor cursor
        let n := sub32 endBuff startBuff
        if n < 0 ∨ off < 0 ∨ startBuff < 0 ∨ E.BYTESPERBLOCK < startBuff + n then
          Result.fault r.2
        else
          let it : Iter :=
            { fbn := currFBN, dbn := st.dbn inum currFBN, startBuff := startBuff,
              endBuff := endBuff, off := off, blkIn := bioBuff, blkOut := bioBuff }
          fsReadLoop E inum cursor numb lastFBN k (add32 currFBN 1) (add32 currCursor n)
            { r.2 with iters := r.2.iters ++ [it] } (memcpy buf off bioBuff startBuff n)
    else Result.ok buf st

/-- The function `fsRead(fd, numb, buf)`: the value returned and the caller's buffer
after the call. -/
def fsRead (E : Bfs) (st : FS) (fd numb : Int) (buf : Bytes) : Result (Int × Bytes) :=
  let inum := E.bfsFdToInum fd
  let size := bfsGetSize st inum
  let cursor := bfsTell E st fd
  let currFBN := div32 cursor E.BYTESPERBLOCK
  let numb := if add32 cursor numb > size then sub32 size cursor else numb
  let lastFBN := div32 (add32 cursor numb) E.BYTESPERBLOCK
  (fsReadLoop E inum cursor numb lastFBN (lastFBN - currFBN + 1).toNat currFBN cursor
      st buf).andThen fun buf1 st1 =>
    (fsSeek E st1 fd numb SEEK_CUR).andThen fun _ st2 =>
      Result.ok (numb, buf1) st2

/-- The `while (currFBN <= lastFBN)` loop of `fsWrite`; the bound on the passes and the
outcome of a `memcpy` outside its objects are as in `fsReadLoop`. -/
def fsWriteLoop (E : Bfs) (inum cursor numb lastFBN : Int) (buf : Bytes) (fuel : Nat)
    (currFBN currCursor : Int) (st : FS) : Result Unit :=
    if currFBN ≤ lastFBN then
      match fuel with
      | 0 => Result.loops st
      | k + 1 =>
        let t := bfsFbnToDbn st inum currFBN
        let currDBN := t.1
        let r := bfsRead t.2 inum currFBN
        let bioBuff := r.1
        let startBuff := sub32 currCursor (mul32 currFBN E.BYTESPERBLOCK)
        let endBuff := endBuffOf E.BYTESPERBLOCK cursor numb currFBN currCursor startBuff
        let off := sub32 currCursor cursor
        let n := sub32 endBuff startBuff
        if n < 0 ∨ off < 0 ∨ startBuff < 0 ∨ E.BYTESPERBLOCK < startBuff + n then
          Result.fault r.2
        else
          let bioBuff1 := memcpy bioBuff startBuff buf off n
          let st3 := bioWrite r.2 currDBN bioBuff1
          let it : Iter :=
            { fbn := currFBN, dbn := currDBN, startBuff := startBuff,
              endBuff := endBuff, off := off, blkIn := bioBuff, blkOut := bioBuff1 }
          fsWriteLoop E inum cursor numb lastFBN buf k (add32 currFBN 1)
            (add32 currCursor n) { st3 with iters := st3.iters ++ [it] }
    else Result.ok () st

/-- Lines 178 to 181 of `fsWrite`: extend the allocation and set the size when the write
ends past the file size. -/
def fsWriteExtend (E : Bfs) (st : FS) (inum size cursor numb lastFBN : Int) : FS :=
  if add32 cursor numb > size then
    bfsSetSize (bfsExtend E st inum lastFBN) inum (add32 cursor numb)
  else st

/-- The function `fsWrite(fd, numb, buf)`. -/
def fsWrite (E : Bfs) (st : FS) (fd numb : Int) (buf : Bytes) : Result Int :=
  let inum := E.bfsFdToInum fd
  let size := bfsGetSize st inum
  let cursor := bfsTell E st fd
  let currFBN := div32 cursor E.BYTESPERBLOCK
  let lastFBN := div32 (add32 cursor numb) E.BYTESPERBLOCK
  let st1 := fsWriteExtend E st inum size cursor numb lastFBN
  (fsWriteLoop E inum cursor numb lastFBN buf (lastFBN - currFBN + 1).toNat currFBN
      cursor st1).andThen fun _ st2 =>
    (fsSeek E st2 fd numb SEEK_CUR).andThen fun _ st3 =>
      Result.ok 0 st3

/-! ## Closed forms used in the statements -/

/-- The pass of the read loop for block `f` in closed form: entered with
`currCursor = max c (f * B)`, on the state `st` the loop starts from. -/
def readPass (B : Int) (st : FS) (inum c n f : Int) : Iter :=
  { fbn := f
    dbn := st.dbn inum f
    startBuff := max c (f * B) - f * B
    endBuff := endBuffOf B c n f (max c (f * B)) (max c (f * B) - f * B)
    off := max c (f * B) - c
    blkIn := st.disk (st.dbn inum f)
    blkOut := st.disk (st.dbn inum f) }

/-- The collaborator calls of one pass of the write loop, in the order made. -/
def writeEvents (inum : Int) (it : Iter) : List Event :=
  [Event.bfsFbnToDbn inum it.fbn, Event.bfsRead inum it.fbn, Event.bioWrite it.dbn]

/-- The bytes `startBuff ≤ j < endBuff` of block `g` that the pass for `g` overwrites,
the pass entered with `currCursor = max c (g * B)`. -/
def inWindow (B c n g j : Int) : Prop :=
  max c (g * B) - g * B ≤ j ∧
    j < endBuffOf B c n g (max c (g * B)) (max c (g * B) - g * B)

/-- The record of a pass of the write loop in closed form: the block translated, the
window, the caller-buffer offset, and the block written back, which is the block read
with the window replaced from the caller's buffer. -/
def WritePass (B : Int) (st : FS) (inum c n : Int) (buf : Bytes) (it : Iter) : Prop :=
  it.dbn = st.dbn inum it.fbn ∧
  it.startBuff = max c (it.fbn * B) - it.fbn * B ∧
  it.endBuff = endBuffOf B c n it.fbn (max c (it.fbn * B)) (max c (it.fbn * B) - it.fbn * B) ∧
  it.off = max c (it.fbn * B) - c ∧
  it.blkOut = memcpy it.blkIn it.startBuff buf it.off (it.endBuff - it.startBuff)

/-- The record of the pass of the write loop for block `f` on the state `st`, entered
with `currCursor = max c (f * B)`. -/
def writePassIter (B : Int) (st : FS) (inum c n : Int) (buf : Bytes) (f : Int) : Iter :=
  { fbn := f
    dbn := st.dbn inum f
    startBuff := max c (f * B) - f * B
    endBuff := endBuffOf B c n f (max c (f * B)) (max c (f * B) - f * B)
    off := max c (f * B) - c
    blkIn := st.disk (st.dbn inum f)
    blkOut := memcpy (st.disk (st.dbn inum f)) (max c (f * B) - f * B) buf
      (max c (f * B) - c)
      (endBuffOf B c n f (max c (f * B)) (max c (f * B) - f * B) - (max c (f * B) - f * B)) }

/-- The state after the pass of the write loop for block `f` on the state `st`. -/
def writePassState (B : Int) (st : FS) (inum c n : Int) (buf : Bytes) (f : Int) : FS :=
  { st with
    disk := fun d => if d = st.dbn inum f then (writePassIter B st inum c n buf f).blkOut
                     else st.disk d
    log := st.log ++ [Event.bfsFbnToDbn inum f] ++ [Event.bfsRead inum f] ++
      [Event.bioWrite (st.dbn inum f)]
    iters := st.iters ++ [writePassIter B st inum c n buf f] }

/-- The state in which `fsWrite(fd, numb, buf)` enters its block loop. -/
def fsWriteStart (E : Bfs) (st : FS) (fd numb : Int) : FS :=
  fsWriteExtend E st (E.bfsFdToInum fd) (bfsGetSize st (E.bfsFdToInum fd)) (bfsTell E st fd)
    numb (div32 (add32 (bfsTell E st fd) numb) E.BYTESPERBLOCK)

/-- The length the specification gives a read of `L` bytes: `L` clamped so that the read
ends at the file size. -/
def clampedLength (E : Bfs) (st : FS) (fd L : Int) : Int :=
  min L (fsSize E st fd - fsTell E st fd)

/-- The sequence `fsSeek(fd, O, SEEK_SET); fsWrite(fd, L, data); fsSeek(fd, O, SEEK_SET);
fsRead(fd, L, buf)`; its outcome is that of `fsRead`, or of the first call that does not
return normally. -/
def roundTrip (E : Bfs) (st : FS) (fd O L : Int) (data buf : Bytes) : Result (Int × Bytes) :=
  (fsSeek E st fd O SEEK_SET).andThen fun _ s1 =>
    (fsWrite E s1 fd L data).andThen fun _ s2 =>
      (fsSeek E s2 fd O SEEK_SET).andThen fun _ s3 =>
        fsRead E s3 fd L buf

/-! ## Concrete inputs -/

/-- Collaborators with 512-byte blocks: descriptor `fd` is bound to inode `fd`, whose
open-file-table entry is entry `fd`; `bfsExtend` leaves map and disk as they are. -/
def demoBfs : Bfs :=
  { BYTESPERBLOCK := 512
    bfsFdToInum := fun fd => fd
    bfsFindOFTE := fun inum => inum
    bfsExtend := fun m d _ _ => (m, d) }

/-- A state in which every cursor is `curs` and every file has size `size`; FBN `f` of
any inode is disk block `f`, and every byte of the disk is 0. -/
def demoFS (curs size : Int) : FS :=
  { g_oft := fun i => { inum := i, curs := curs }
    size := fun _ => size
    dbn := fun _ f => f
    disk := fun _ _ => 0
    log := []
    iters := [] }

/-- A caller's buffer filled with the byte 7. -/
def sevens : Bytes := fun _ => 7

/-! ## Descriptors that share an inode -/

/-- Collaborators in which every descriptor resolves to inode 7, whose open-file-table
entry is entry 7; otherwise as `demoBfs`. -/
def sharedBfs : Bfs :=
  { BYTESPERBLOCK := 512
    bfsFdToInum := fun _ => 7
    bfsFindOFTE := fun inum => inum
    bfsExtend := fun m d _ _ => (m, d) }

/-! ## Lifecycle operations: `fsOpen` and `fsCreate` -/

/-- The collaborators of `fsOpen` and `fsCreate`, none of them in the sources: the error
value `EFNF` of `bfs.h`, the directory lookup `bfsLookupFile`, the creation
`bfsCreateFile` and the binding `bfsInumToFd` of a descriptor, each a function of the
state that returns an `i32` and the state it leaves. -/
structure BfsDir where
  EFNF : Int
  bfsLookupFile : FS → String → Int × FS
  bfsCreateFile : FS → String → Int × FS
  bfsInumToFd : FS → Int → Int × FS

/-- The function `fsOpen(fname)`: the value returned and the state after the call. -/
def fsOpen (D : BfsDir) (st : FS) (fname : String) : Int × FS :=
  let r := D.bfsLookupFile st fname
  if r.1 = D.EFNF then (D.EFNF, r.2)
  else D.bfsInumToFd r.2 r.1

/-- The function `fsCreate(fname)`: the value returned and the state after the call. -/
def fsCreate (D : BfsDir) (st : FS) (fname : String) : Int × FS :=
  let r := D.bfsCreateFile st fname
  if r.1 = D.EFNF then (D.EFNF, r.2)
  else D.bfsInumToFd r.2 r.1

/-- A directory in which only the file `a` exists, as inode 5; creation gives inode 6
except for the empty name, which it refuses; inode `i` is bound to descriptor `i + 3`. -/
def demoDir : BfsDir :=
  { EFNF := -1
    bfsLookupFile := fun st fname => (if fname = "a" then 5 else -1, st)
    bfsCreateFile := fun st fname => (if fname = "" then -1 else 6, st)
    bfsInumToFd := fun st inum => (if inum < 0 then 0 else inum + 3, st) }

/-! ## The windows of the specification -/

/-- The window of a pass: the FBN, the intra-block start and end, and the offset in the
caller's buffer. -/
structure Window where
  fbn : Int
  startBuff : Int
  endBuff : Int
  off : Int
  deriving DecidableEq

/-- The window a pass of the block loop has used. -/
def Iter.window (it : Iter) : Window :=
  { fbn := it.fbn, startBuff := it.startBuff, endBuff := it.endBuff, off := it.off }

/-- The window of the specification for block `f` of a request of `n` bytes at cursor
`c`: intra-block start `max(c, f·B) − f·B`, intra-block end
`min(c + n, (f + 1)·B) − f·B`, at the matching offset `max(c, f·B) − c` of the caller's
buffer. -/
def specWindow (B c n f : Int) : Window :=
  { fbn := f
    startBuff := max c (f * B) - f * B
    endBuff := min (c + n) ((f + 1) * B) - f * B
    off := max c (f * B) - c }

/-- The passes of the specification: one for each FBN from `c / B` to `(c + n) / B`
inclusive, in this order. -/
def specPasses (B c n : Int) : List Window :=
  (List.range ((c + n) / B - c / B + 1).toNat).map
    (fun (j : Nat) => specWindow B c n (c / B + (j : Int)))

/-! ## Arithmetic of `i32` -/

/-- A value within `i32` is not changed by the reduction. -/
theorem wrap32_of_range {x : Int} (h1 : I32_MIN ≤ x) (h2 : x ≤ I32_MAX) : wrap32 x = x := by
  unfold I32_MIN at h1
  unfold I32_MAX at h2
  unfold wrap32
  omega

/-- A value just above `i32` wraps to a negative one. -/
theorem wrap32_above {x : Int} (h1 : I32_MAX < x) (h2 : x ≤ 2 * I32_MAX + 1) :
    wrap32 x = x - 4294967296 := by
  unfold I32_MAX at h1 h2
  unfold wrap32
  omega

/-- The reduction lands in `i32`. -/
theorem wrap32_range (x : Int) : I32_MIN ≤ wrap32 x ∧ wrap32 x ≤ I32_MAX := by
  unfold I32_MIN I32_MAX wrap32
  omega

/-- Block index and offset of a position lying in block `f`. -/
theorem div_mod_of_block {B f x : Int} (hB : 0 < B) (h1 : f * B ≤ x) (h2 : x < f * B + B) :
    x / B = f ∧ x % B = x - f * B := by
  have hd : x / B = f := by
    apply le_antisymm
    · have : x / B < f + 1 := by
        rw [Int.ediv_lt_iff_lt_mul hB]
        have : (f + 1) * B = f * B + B := by ring
        omega
      omega
    · rw [Int.le_ediv_iff_mul_le hB]
      exact h1
  refine ⟨hd, ?_⟩
  have := Int.ediv_add_emod x B
  rw [hd] at this
  have h3 : B * f = f * B := by ring
  omega

/-- The block of a position: `x / B * B ≤ x < x / B * B + B`. -/
theorem block_bounds {B : Int} (x : Int) (hB : 0 < B) : x / B * B ≤ x ∧ x < x / B * B + B := by
  have h1 := Int.ediv_add_emod x B
  have h2 := Int.emod_nonneg x (ne_of_gt hB)
  have h3 := Int.emod_lt_of_pos x hB
  have h4 : B * (x / B) = x / B * B := by ring
  omega

/-- The `i32` quotient of a non-negative `i32` by a positive block size is the
mathematical quotient. -/
theorem div32_of_nonneg {x B : Int} (hx : 0 ≤ x) (hxM : x ≤ I32_MAX) (hB : 0 < B) :
    div32 x B = x / B := by
  unfold div32
  rw [Int.tdiv_eq_ediv hx (le_of_lt hB)]
  have h0 : 0 ≤ x / B := Int.ediv_nonneg hx (le_of_lt hB)
  have h1 : x / B ≤ x := Int.ediv_le_self B hx
  apply wrap32_of_range
  · unfold I32_MIN; omega
  · omega

/-! ## One pass of the block loop -/

/-- Multiples of the block size met in the loop: the block bounds of `c` and `c + n`,
monotonicity, and `f + 1` within `i32`. -/
theorem block_facts {B c n f : Int} (hB : 2 ≤ B) (hc : 0 ≤ c)
    (hf : c / B ≤ f) (hl : f ≤ (c + n) / B) :
    0 ≤ f ∧ c / B * B ≤ c ∧ c < c / B * B + B ∧ (c + n) / B * B ≤ c + n ∧
    c + n < (c + n) / B * B + B ∧ c / B * B ≤ f * B ∧ f * B ≤ (c + n) / B * B ∧
    (f < (c + n) / B → f * B + B ≤ (c + n) / B * B) ∧ 2 * f ≤ f * B ∧
    (f + 1) * B = f * B + B := by
  have hB0 : 0 < B := by omega
  have h0 : 0 ≤ c / B := Int.ediv_nonneg hc (le_of_lt hB0)
  have hf0 : 0 ≤ f := le_trans h0 hf
  obtain ⟨a1, a2⟩ := block_bounds c hB0
  obtain ⟨b1, b2⟩ := block_bounds (c + n) hB0
  have m1 : c / B * B ≤ f * B := Int.mul_le_mul_of_nonneg_right hf (le_of_lt hB0)
  have m2 : f * B ≤ (c + n) / B * B := Int.mul_le_mul_of_nonneg_right hl (le_of_lt hB0)
  have m3 : f < (c + n) / B → f * B + B ≤ (c + n) / B * B := by
    intro h
    have : (f + 1) * B ≤ (c + n) / B * B :=
      Int.mul_le_mul_of_nonneg_right (by omega) (le_of_lt hB0)
    have e : (f + 1) * B = f * B + B := by ring
    omega
  have m4 : 2 * f ≤ f * B := by
    have : f * 2 ≤ f * B := Int.mul_le_mul_of_nonneg_left hB hf0
    omega
  exact ⟨hf0, a1, a2, b1, b2, m1, m2, m3, m4, by ring⟩

/-- The values computed in the pass for block `f`, entered with
`currCursor = max c (f * B)`: no operation wraps except possibly
`(currFBN + 1) * BYTESPERBLOCK` in the last pass. -/
theorem pass_facts {B c n f : Int} (hB : 2 ≤ B)
    (hBM : B ≤ I32_MAX) (hc : 0 ≤ c) (hn : 0 ≤ n) (hcn : c + n ≤ I32_MAX)
    (hf : c / B ≤ f) (hl : f ≤ (c + n) / B) :
    mul32 f B = f * B ∧
    sub32 (max c (f * B)) (f * B) = max c (f * B) - f * B ∧
    sub32 (max c (f * B)) c = max c (f * B) - c ∧
    add32 f 1 = f + 1 ∧
    max c (f * B) - f * B ≤ endBuffOf B c n f (max c (f * B)) (max c (f * B) - f * B) ∧
    endBuffOf B c n f (max c (f * B)) (max c (f * B) - f * B) ≤ B ∧
    (f < (c + n) / B →
      endBuffOf B c n f (max c (f * B)) (max c (f * B) - f * B) = B) ∧
    (f = (c + n) / B →
      c + n ≤ f * B + endBuffOf B c n f (max c (f * B)) (max c (f * B) - f * B)) ∧
    ((c + n) / B * B + B ≤ I32_MAX →
      endBuffOf B c n f (max c (f * B)) (max c (f * B) - f * B)
        = min (c + n) (f * B + B) - f * B) := by
  obtain ⟨hf0, a1, a2, b1, b2, m1, m2, m3, m4, m5⟩ := block_facts hB hc hf hl
  have hcc1 : f * B ≤ max c (f * B) := le_max_right _ _
  have hcc2 : c ≤ max c (f * B) := le_max_left _ _
  have hcc3 : max c (f * B) ≤ c + n := max_le (by omega) (by omega)
  have hcc4 : max c (f * B) < f * B + B := max_lt (by omega) (by omega)
  generalize max c (f * B) = cc at *
  simp only [I32_MAX] at hBM hcn ⊢
  have e1 : mul32 f B = f * B :=
    wrap32_of_range (by unfold I32_MIN; omega) (by unfold I32_MAX; omega)
  have e2 : sub32 cc (f * B) = cc - f * B :=
    wrap32_of_range (by unfold I32_MIN; omega) (by unfold I32_MAX; omega)
  have e3 : sub32 cc c = cc - c :=
    wrap32_of_range (by unfold I32_MIN; omega) (by unfold I32_MAX; omega)
  have e4 : add32 f 1 = f + 1 :=
    wrap32_of_range (by unfold I32_MIN; omega) (by unfold I32_MAX; omega)
  have e5 : sub32 n (cc - c) = n - (cc - c) :=
    wrap32_of_range (by unfold I32_MIN; omega) (by unfold I32_MAX; omega)
  have e6 : add32 cc (n - (cc - c)) = c + n := by
    unfold add32
    rw [wrap32_of_range (by unfold I32_MIN; omega) (by unfold I32_MAX; omega)]
    omega
  have e7 : add32 (n - (cc - c)) (cc - f * B) = c + n - f * B := by
    unfold add32
    rw [wrap32_of_range (by unfold I32_MIN; omega) (by unfold I32_MAX; omega)]
    omega
  have e8 : mul32 (f + 1) B = wrap32 (f * B + B) := by
    unfold mul32; rw [m5]
  have hE : endBuffOf B c n f cc (cc - f * B)
      = if c + n > wrap32 (f * B + B) then B else c + n - f * B := by
    unfold endBuffOf
    simp only [e3, e4, e5, e6, e7, e8]
  rw [hE]
  refine ⟨e1, e2, e3, e4, ?_, ?_, ?_, ?_, ?_⟩
  · split <;> omega
  · split
    · omega
    · rename_i h
      rcases le_or_lt (f * B + B) 2147483647 with h1 | h1
      · rw [wrap32_of_range (by unfold I32_MIN; omega) (by unfold I32_MAX; omega)] at h
        omega
      · rw [wrap32_above (by unfold I32_MAX; omega) (by unfold I32_MAX; omega)] at h
        omega
  · intro hlt
    have := m3 hlt
    rw [wrap32_of_range (by unfold I32_MIN; omega) (by unfold I32_MAX; omega)]
    split <;> omega
  · intro heq
    have hq : f * B = (c + n) / B * B := by rw [heq]
    split <;> omega
  · intro hex
    have hfl : f * B + B ≤ 2147483647 := by omega
    rw [wrap32_of_range (by unfold I32_MIN; omega) (by unfold I32_MAX; omega)]
    rcases le_total (c + n) (f * B + B) with h | h
    · rw [min_eq_left h]
      split <;> omega
    · rw [min_eq_right h]
      split <;> omega

/-- The copy length and the cursor handed to the next pass. -/
theorem pass_next {B c n f : Int} (hB : 2 ≤ B)
    (hBM : B ≤ I32_MAX) (hc : 0 ≤ c) (hn : 0 ≤ n) (hcn : c + n ≤ I32_MAX)
    (hf : c / B ≤ f) (hl : f ≤ (c + n) / B) :
    0 ≤ max c (f * B) - f * B ∧ 0 ≤ max c (f * B) - c ∧
    max c (f * B) - f * B < B ∧ max c (f * B) ≤ c + n ∧
    sub32 (endBuffOf B c n f (max c (f * B)) (max c (f * B) - f * B))
        (max c (f * B) - f * B)
      = endBuffOf B c n f (max c (f * B)) (max c (f * B) - f * B)
        - (max c (f * B) - f * B) ∧
    (f < (c + n) / B →
      add32 (max c (f * B))
          (endBuffOf B c n f (max c (f * B)) (max c (f * B) - f * B)
            - (max c (f * B) - f * B))
        = max c ((f + 1) * B)) := by
  obtain ⟨_, _, _, _, p5, p6, p7, _, _⟩ := pass_facts hB hBM hc hn hcn hf hl
  obtain ⟨hf0, a1, a2, b1, b2, m1, m2, m3, m4, m5⟩ := block_facts hB hc hf hl
  have hcc1 : f * B ≤ max c (f * B) := le_max_right _ _
  have hcc2 : c ≤ max c (f * B) := le_max_left _ _
  have hcc3 : max c (f * B) ≤ c + n := max_le (by omega) (by omega)
  have hcc4 : max c (f * B) < f * B + B := max_lt (by omega) (by omega)
  simp only [I32_MAX] at hBM hcn
  refine ⟨by omega, by omega, by omega, hcc3, ?_, ?_⟩
  · exact wrap32_of_range (by unfold I32_MIN; omega) (by unfold I32_MAX; omega)
  · intro hlt
    have h1 := m3 hlt
    have hmax : max c ((f + 1) * B) = f * B + B := by
      rw [m5]; exact max_eq_right (by omega)
    rw [p7 hlt, hmax]
    unfold add32
    rw [wrap32_of_range (by unfold I32_MIN; omega) (by unfold I32_MAX; omega)]
    omega

/-- The block loop is left at once when `currFBN` is past `lastFBN`. -/
theorem fsReadLoop_exit (E : Bfs) (inum c n l : Int) (k : Nat) (f cc : Int) (st : FS)
    (buf : Bytes) (h : l < f) :
    fsReadLoop E inum c n l k f cc st buf = Result.ok buf st := by
  rw [fsReadLoop.eq_def, if_neg (by omega)]

/-- Unrolling the first element of a list indexed from `f` on. -/
theorem map_range_succ {α : Type} (g : Int → α) (f : Int) (k : Nat) :
    (List.range (k + 1)).map (fun (j : Nat) => g (f + (j : Int)))
      = g f :: (List.range k).map (fun (j : Nat) => g (f + 1 + (j : Int))) := by
  rw [List.range_succ_eq_map, List.map_cons, List.map_map]
  simp only [Nat.cast_zero, add_zero, List.cons.injEq, true_and]
  apply List.map_congr_left
  intro j _
  simp only [Function.comp, Nat.cast_succ]
  congr 1
  ring

/-- The read loop from block `f` on, entered with `currCursor = max c (f * B)`: it ends
normally after one pass per FBN from `f` to `(c + n) / B`; it changes the ghost fields
only; the bytes of the buffer from `max c (f * B) - c` to `n` become the file bytes at
their positions, the bytes before are kept, and so are the bytes from `n` on when the
end of the last block lies within `i32`. -/
theorem fsReadLoop_spec (E : Bfs) (inum : Int) {c n : Int} (hB : 2 ≤ E.BYTESPERBLOCK)
    (hBM : E.BYTESPERBLOCK ≤ I32_MAX) (hc : 0 ≤ c) (hn : 0 ≤ n) (hcn : c + n ≤ I32_MAX) :
    ∀ (k : Nat) (f : Int) (st : FS) (buf : Bytes),
      (k : Int) = (c + n) / E.BYTESPERBLOCK - f + 1 →
      c / E.BYTESPERBLOCK ≤ f → f ≤ (c + n) / E.BYTESPERBLOCK →
      ∃ buf1 st1,
        fsReadLoop E inum c n ((c + n) / E.BYTESPERBLOCK) k f
            (max c (f * E.BYTESPERBLOCK)) st buf = Result.ok buf1 st1 ∧
        st1.g_oft = st.g_oft ∧ st1.size = st.size ∧ st1.dbn = st.dbn ∧
        st1.disk = st.disk ∧
        st1.log = st.log ++ (List.range k).map (fun (j : Nat) => Event.bfsRead inum (f + (j : Int))) ∧
        st1.iters = st.iters ++
          (List.range k).map (fun (j : Nat) => readPass E.BYTESPERBLOCK st inum c n (f + (j : Int))) ∧
        (∀ i, i < max c (f * E.BYTESPERBLOCK) - c → buf1 i = buf i) ∧
        (∀ i, max c (f * E.BYTESPERBLOCK) - c ≤ i → i < n →
          buf1 i = st.disk (st.dbn inum ((c + i) / E.BYTESPERBLOCK))
            ((c + i) % E.BYTESPERBLOCK)) ∧
        ((c + n) / E.BYTESPERBLOCK * E.BYTESPERBLOCK + E.BYTESPERBLOCK ≤ I32_MAX →
          ∀ i, n ≤ i → buf1 i = buf i) := by
  intro k
  induction k with
  | zero => intro f st buf hk hf hl; simp at hk; omega
  | succ k ih =>
    intro f st buf hk hf hl
    obtain ⟨e1, e2, e3, e4, p5, p6, p7, p8, p9⟩ := pass_facts hB hBM hc hn hcn hf hl
    obtain ⟨q1, q2, q3, q4, q5, q6⟩ := pass_next hB hBM hc hn hcn hf hl
    rw [fsReadLoop.eq_def, if_pos hl]
    simp only [bfsRead, e1, e2, e3, e4, q5]
    rw [if_neg (by omega)]
    obtain ⟨hf0, a1, a2, b1, b2, m1, m2, m3, m4, m5⟩ := block_facts (by omega) hc hf hl
    have hcc1 : f * E.BYTESPERBLOCK ≤ max c (f * E.BYTESPERBLOCK) := le_max_right _ _
    have hcc2 : c ≤ max c (f * E.BYTESPERBLOCK) := le_max_left _ _
    have hB0 : 0 < E.BYTESPERBLOCK := by omega
    rcases lt_or_eq_of_le hl with hlt | heq
    · -- a further pass follows
      have h7 := p7 hlt
      have h3 := m3 hlt
      rw [q6 hlt]
      have hmax : max c ((f + 1) * E.BYTESPERBLOCK) = f * E.BYTESPERBLOCK + E.BYTESPERBLOCK := by
        rw [m5]; exact max_eq_right (by omega)
      obtain ⟨buf1, st1, hrun, g1, g2, g3, g4, g5, g6, g7, g8, g9⟩ :=
        ih (f + 1) _ (memcpy buf (max c (f * E.BYTESPERBLOCK) - c) (st.disk (st.dbn inum f))
            (max c (f * E.BYTESPERBLOCK) - f * E.BYTESPERBLOCK)
            (endBuffOf E.BYTESPERBLOCK c n f (max c (f * E.BYTESPERBLOCK))
                (max c (f * E.BYTESPERBLOCK) - f * E.BYTESPERBLOCK) -
              (max c (f * E.BYTESPERBLOCK) - f * E.BYTESPERBLOCK)))
          (by push_cast at hk; omega) (by omega) (by omega)
      refine ⟨buf1, st1, hrun, g1, g2, g3, g4, ?_, ?_, ?_, ?_, ?_⟩
      · rw [g5, map_range_succ (fun x => Event.bfsRead inum x)]
        simp only [List.append_assoc, List.singleton_append]
      · rw [g6, map_range_succ (fun x => readPass E.BYTESPERBLOCK st inum c n x)]
        simp only [List.append_assoc, List.singleton_append, readPass]
      · intro i hi
        rw [g7 i (by omega)]
        simp only [memcpy]
        rw [if_neg (by omega)]
      · intro i hi1 hi2
        rcases lt_or_le i (max c ((f + 1) * E.BYTESPERBLOCK) - c) with hi3 | hi3
        · rw [g7 i hi3]
          simp only [memcpy]
          rw [if_pos (by omega)]
          obtain ⟨d1, d2⟩ := div_mod_of_block (f := f) (x := c + i) hB0 (by omega) (by omega)
          rw [d1, d2]
          congr 1
          omega
        · exact g8 i hi3 hi2
      · intro hex i hi
        rw [g9 hex i hi]
        simp only [memcpy]
        rw [if_neg (by omega)]
    · -- the last pass
      have h8 := p8 heq
      have hq : f * E.BYTESPERBLOCK = (c + n) / E.BYTESPERBLOCK * E.BYTESPERBLOCK := by rw [heq]
      have hk0 : k = 0 := by push_cast at hk; omega
      subst hk0
      rw [fsReadLoop_exit _ _ _ _ _ _ _ _ _ _ (by omega)]
      refine ⟨_, _, rfl, rfl, rfl, rfl, rfl, ?_, ?_, ?_, ?_, ?_⟩
      · rw [map_range_succ (fun x => Event.bfsRead inum x)]
        simp
      · rw [map_range_succ (fun x => readPass E.BYTESPERBLOCK st inum c n x)]
        simp [readPass]
      · intro i hi
        simp only [memcpy]
        rw [if_neg (by omega)]
      · intro i hi1 hi2
        simp only [memcpy]
        rw [if_pos (by omega)]
        obtain ⟨d1, d2⟩ := div_mod_of_block (f := f) (x := c + i) hB0 (by omega) (by omega)
        rw [d1, d2]
        congr 1
        omega
      · intro hex i hi
        have h9 := p9 hex
        rw [min_eq_left (by omega)] at h9
        simp only [memcpy]
        rw [if_neg (by omega)]

/-! ## `fsSeek` -/

/-- A negative offset aborts `fsSeek` before anything else is done. -/
theorem fsSeek_neg (E : Bfs) (st : FS) (fd offset whence : Int) (h : offset < 0) :
    fsSeek E st fd offset whence = Result.fatal Err.EBADCURS st := by
  unfold fsSeek
  rw [if_pos h]

/-- The case `SEEK_CUR` of `fsSeek`. -/
theorem fsSeek_cur (E : Bfs) (st : FS) (fd offset : Int) (h : 0 ≤ offset) :
    fsSeek E st fd offset SEEK_CUR = Result.ok 0 (setCurs st (E.bfsFindOFTE (E.bfsFdToInum fd))
      (add32 (bfsTell E st fd) offset)) := by
  unfold fsSeek
  rw [if_neg (by omega)]
  simp [SEEK_CUR, SEEK_SET, bfsTell]

/-- The case `SEEK_SET` of `fsSeek`. -/
theorem fsSeek_set (E : Bfs) (st : FS) (fd offset : Int) (h : 0 ≤ offset) :
    fsSeek E st fd offset SEEK_SET
      = Result.ok 0 (setCurs st (E.bfsFindOFTE (E.bfsFdToInum fd)) offset) := by
  unfold fsSeek
  rw [if_neg (by omega)]
  simp

/-- The case `SEEK_END` of `fsSeek`. -/
theorem fsSeek_end (E : Bfs) (st : FS) (fd offset : Int) (h : 0 ≤ offset) :
    fsSeek E st fd offset SEEK_END = Result.ok 0 (setCurs st (E.bfsFindOFTE (E.bfsFdToInum fd))
      (add32 (fsSize E st fd) offset)) := by
  unfold fsSeek
  rw [if_neg (by omega)]
  simp [SEEK_CUR, SEEK_SET, SEEK_END]

/-- The cursor read back after the assignment `g_oft[ofte].curs = v`. -/
theorem bfsTell_setCurs (E : Bfs) (st : FS) (fd v : Int) :
    bfsTell E (setCurs st (E.bfsFindOFTE (E.bfsFdToInum fd)) v) fd = v := by
  simp [bfsTell, setCurs]

/-! ## `fsRead` -/

/-- What `fsRead` does on a cursor inside the file, the request ending within `i32`: it returns the
clamped length with the cursor advanced by it; the state changes in the cursor and the
ghost fields only; the first `n` bytes of the buffer are the file bytes from the cursor
on, the bytes before index 0 are kept, and so are those from index `n` on when the end
of the last block touched lies within `i32`. -/
theorem fsRead_spec (E : Bfs) (st : FS) (fd L : Int) (buf : Bytes)
    (hB : 2 ≤ E.BYTESPERBLOCK) (hBM : E.BYTESPERBLOCK ≤ I32_MAX)
    (hc : 0 ≤ fsTell E st fd) (hcs : fsTell E st fd ≤ fsSize E st fd) (hL : 0 ≤ L)
    (hcL : fsTell E st fd + L ≤ I32_MAX) :
    ∃ buf1 st1,
      fsRead E st fd L buf = Result.ok (clampedLength E st fd L, buf1) st1 ∧
      st1.g_oft = (setCurs st (E.bfsFindOFTE (E.bfsFdToInum fd))
        (fsTell E st fd + clampedLength E st fd L)).g_oft ∧
      st1.size = st.size ∧ st1.dbn = st.dbn ∧ st1.disk = st.disk ∧
      st1.log = st.log ++
        (List.range ((fsTell E st fd + clampedLength E st fd L) / E.BYTESPERBLOCK
            - fsTell E st fd / E.BYTESPERBLOCK + 1).toNat).map
          (fun (j : Nat) => Event.bfsRead (E.bfsFdToInum fd)
            (fsTell E st fd / E.BYTESPERBLOCK + (j : Int))) ∧
      st1.iters = st.iters ++
        (List.range ((fsTell E st fd + clampedLength E st fd L) / E.BYTESPERBLOCK
            - fsTell E st fd / E.BYTESPERBLOCK + 1).toNat).map
          (fun (j : Nat) => readPass E.BYTESPERBLOCK st (E.bfsFdToInum fd) (fsTell E st fd)
            (clampedLength E st fd L) (fsTell E st fd / E.BYTESPERBLOCK + (j : Int))) ∧
      (∀ i, i < 0 → buf1 i = buf i) ∧
      (∀ i, 0 ≤ i → i < clampedLength E st fd L →
        buf1 i = st.disk (st.dbn (E.bfsFdToInum fd) ((fsTell E st fd + i) / E.BYTESPERBLOCK))
          ((fsTell E st fd + i) % E.BYTESPERBLOCK)) ∧
      ((fsTell E st fd + clampedLength E st fd L) / E.BYTESPERBLOCK * E.BYTESPERBLOCK
          + E.BYTESPERBLOCK ≤ I32_MAX →
        ∀ i, clampedLength E st fd L ≤ i → buf1 i = buf i) := by
  have hB0 : 0 < E.BYTESPERBLOCK := by omega
  have hn0 : 0 ≤ clampedLength E st fd L := by
    unfold clampedLength; exact le_min hL (by omega)
  have hnL : clampedLength E st fd L ≤ L := by
    unfold clampedLength; exact min_le_left _ _
  have hT : bfsTell E st fd = fsTell E st fd := rfl
  have hS : bfsGetSize st (E.bfsFdToInum fd) = fsSize E st fd := rfl
  have hcn : fsTell E st fd + clampedLength E st fd L ≤ I32_MAX := by omega
  have hnum : (if add32 (fsTell E st fd) L > fsSize E st fd
      then sub32 (fsSize E st fd) (fsTell E st fd) else L)
      = clampedLength E st fd L := by
    have e : add32 (fsTell E st fd) L = fsTell E st fd + L :=
      wrap32_of_range (by unfold I32_MIN; omega) hcL
    rw [e]
    unfold clampedLength
    simp only [I32_MAX] at hcL
    split
    · rw [min_eq_right (by omega)]
      exact wrap32_of_range (by unfold I32_MIN; omega) (by unfold I32_MAX; omega)
    · rw [min_eq_left (by omega)]
  have e1 : add32 (fsTell E st fd) (clampedLength E st fd L)
      = fsTell E st fd + clampedLength E st fd L :=
    wrap32_of_range (by unfold I32_MIN; omega) hcn
  have e2 : div32 (fsTell E st fd) E.BYTESPERBLOCK = fsTell E st fd / E.BYTESPERBLOCK :=
    div32_of_nonneg hc (by omega) hB0
  have e3 : div32 (fsTell E st fd + clampedLength E st fd L) E.BYTESPERBLOCK
      = (fsTell E st fd + clampedLength E st fd L) / E.BYTESPERBLOCK :=
    div32_of_nonneg (by omega) hcn hB0
  unfold fsRead
  simp only [hT, hS, hnum, e1, e2, e3]
  have hfl : fsTell E st fd / E.BYTESPERBLOCK
      ≤ (fsTell E st fd + clampedLength E st fd L) / E.BYTESPERBLOCK :=
    Int.ediv_le_ediv hB0 (by omega)
  obtain ⟨a1, a2⟩ := block_bounds (fsTell E st fd) hB0
  have hmax : max (fsTell E st fd) (fsTell E st fd / E.BYTESPERBLOCK * E.BYTESPERBLOCK)
      = fsTell E st fd := max_eq_left a1
  obtain ⟨buf1, st1, hrun, g1, g2, g3, g4, g5, g6, g7, g8, g9⟩ :=
    fsReadLoop_spec E (E.bfsFdToInum fd) hB hBM hc hn0 hcn
      ((fsTell E st fd + clampedLength E st fd L) / E.BYTESPERBLOCK
        - fsTell E st fd / E.BYTESPERBLOCK + 1).toNat
      (fsTell E st fd / E.BYTESPERBLOCK) st buf
      (by rw [Int.toNat_of_nonneg (by omega)]) (le_refl _) hfl
  rw [hmax] at hrun g7 g8
  rw [hrun]
  simp only [Result.andThen]
  rw [fsSeek_cur E st1 fd _ hn0]
  refine ⟨buf1, _, rfl, ?_, g2, g3, g4, g5, g6, ?_, ?_, g9⟩
  · have : bfsTell E st1 fd = fsTell E st fd := by
      unfold fsTell bfsTell; rw [g1]
    rw [this, e1]
    simp only [setCurs, g1]
  · intro i hi
    exact g7 i (by omega)
  · intro i hi1 hi2
    exact g8 i (by omega) hi2

/-! ## `fsWrite` -/

/-- The write loop is left at once when `currFBN` is past `lastFBN`. -/
theorem fsWriteLoop_exit (E : Bfs) (inum c n l : Int) (buf : Bytes) (k : Nat) (f cc : Int)
    (st : FS) (h : l < f) :
    fsWriteLoop E inum c n l buf k f cc st = Result.ok () st := by
  rw [fsWriteLoop.eq_def, if_neg (by omega)]

/-- The write loop from block `f` on, entered with `currCursor = max c (f * B)`: it
ends normally; it changes the disk and the ghost fields only; a byte of the disk is
changed only inside the window of a pass on its block; and when the touched FBNs have
distinct DBNs the bytes of the caller's buffer from `max c (f * B) - c` to `n` are on
the disk at their file positions. -/
theorem fsWriteLoop_spec (E : Bfs) (inum : Int) {c n : Int} (buf : Bytes)
    (hB : 2 ≤ E.BYTESPERBLOCK) (hBM : E.BYTESPERBLOCK ≤ I32_MAX) (hc : 0 ≤ c)
    (hn : 0 ≤ n) (hcn : c + n ≤ I32_MAX) :
    ∀ (k : Nat) (f : Int) (st : FS),
      (k : Int) = (c + n) / E.BYTESPERBLOCK - f + 1 →
      c / E.BYTESPERBLOCK ≤ f → f ≤ (c + n) / E.BYTESPERBLOCK →
      ∃ st1 its,
        fsWriteLoop E inum c n ((c + n) / E.BYTESPERBLOCK) buf k f
            (max c (f * E.BYTESPERBLOCK)) st = Result.ok () st1 ∧
        st1.g_oft = st.g_oft ∧ st1.size = st.size ∧ st1.dbn = st.dbn ∧
        st1.iters = st.iters ++ its ∧
        st1.log = st.log ++ its.flatMap (writeEvents inum) ∧
        its.map (fun it => it.fbn) = (List.range k).map (fun (j : Nat) => f + (j : Int)) ∧
        (∀ it, it ∈ its → WritePass E.BYTESPERBLOCK st inum c n buf it) ∧
        (∀ d j, (∀ g, f ≤ g → g ≤ (c + n) / E.BYTESPERBLOCK → st.dbn inum g = d →
            ¬ inWindow E.BYTESPERBLOCK c n g j) → st1.disk d j = st.disk d j) ∧
        ((∀ g h, f ≤ g → g ≤ (c + n) / E.BYTESPERBLOCK → f ≤ h →
            h ≤ (c + n) / E.BYTESPERBLOCK → st.dbn inum g = st.dbn inum h → g = h) →
          ∀ i, max c (f * E.BYTESPERBLOCK) - c ≤ i → i < n →
            st1.disk (st.dbn inum ((c + i) / E.BYTESPERBLOCK)) ((c + i) % E.BYTESPERBLOCK)
              = buf i) := by
  intro k
  induction k with
  | zero => intro f st hk hf hl; simp at hk; omega
  | succ k ih =>
    intro f st hk hf hl
    obtain ⟨e1, e2, e3, e4, p5, p6, p7, p8, p9⟩ := pass_facts hB hBM hc hn hcn hf hl
    obtain ⟨q1, q2, q3, q4, q5, q6⟩ := pass_next hB hBM hc hn hcn hf hl
    rw [fsWriteLoop.eq_def, if_pos hl]
    simp only [bfsRead, bfsFbnToDbn, bioWrite, e1, e2, e3, e4, q5]
    rw [if_neg (by omega)]
    obtain ⟨hf0, a1, a2, b1, b2, m1, m2, m3, m4, m5⟩ := block_facts (by omega) hc hf hl
    have hcc1 : f * E.BYTESPERBLOCK ≤ max c (f * E.BYTESPERBLOCK) := le_max_right _ _
    have hcc2 : c ≤ max c (f * E.BYTESPERBLOCK) := le_max_left _ _
    have hB0 : 0 < E.BYTESPERBLOCK := by omega
    rcases lt_or_eq_of_le hl with hlt | heq
    · -- a further pass follows
      have h7 := p7 hlt
      have h3 := m3 hlt
      rw [q6 hlt]
      have hmax : max c ((f + 1) * E.BYTESPERBLOCK)
          = f * E.BYTESPERBLOCK + E.BYTESPERBLOCK := by
        rw [m5]; exact max_eq_right (by omega)
      obtain ⟨st1, its, hrun, g1, g2, g3, g4, g5, g6, g7, g8, g9⟩ :=
        ih (f + 1) (writePassState E.BYTESPERBLOCK st inum c n buf f)
          (by push_cast at hk; omega) (by omega) (by omega)
      refine ⟨st1, writePassIter E.BYTESPERBLOCK st inum c n buf f :: its, hrun, g1, g2, g3,
        ?_, ?_, ?_, ?_, ?_, ?_⟩
      · rw [g4]; simp [writePassState]
      · rw [g5]; simp [writePassState, writeEvents, writePassIter]
      · rw [map_range_succ (fun x => x), List.map_cons, g6]
        rfl
      · intro it hit
        rcases List.mem_cons.mp hit with h | h
        · rw [h]
          exact ⟨rfl, rfl, rfl, rfl, rfl⟩
        · exact g7 it h
      · intro d j hd
        rw [g8 d j (fun g hg1 hg2 hg3 => hd g (by omega) hg2 hg3)]
        simp only [writePassState, writePassIter]
        split
        · rename_i hdf
          have hw := hd f (le_refl _) hl hdf.symm
          unfold inWindow at hw
          rw [hdf]
          simp only [memcpy]
          rw [if_neg (by omega)]
        · rfl
      · intro hinj i hi1 hi2
        rcases lt_or_le i (max c ((f + 1) * E.BYTESPERBLOCK) - c) with hi3 | hi3
        · obtain ⟨d1, d2⟩ := div_mod_of_block (f := f) (x := c + i) hB0 (by omega) (by omega)
          rw [d1, d2]
          rw [g8 (st.dbn inum f) _ (fun g hg1 hg2 hg3 => by
            have := hinj g f (by omega) hg2 (le_refl _) hl hg3
            omega)]
          simp only [writePassState, writePassIter, if_true, memcpy]
          rw [if_pos (by omega)]
          congr 1
          omega
        · exact g9 (fun g h hg1 hg2 hh1 hh2 => hinj g h (by omega) hg2 (by omega) hh2) i hi3 hi2
    · -- the last pass
      have h8 := p8 heq
      have hq : f * E.BYTESPERBLOCK = (c + n) / E.BYTESPERBLOCK * E.BYTESPERBLOCK := by
        rw [heq]
      have hk0 : k = 0 := by push_cast at hk; omega
      subst hk0
      rw [fsWriteLoop_exit _ _ _ _ _ _ _ _ _ _ (by omega)]
      refine ⟨writePassState E.BYTESPERBLOCK st inum c n buf f,
        [writePassIter E.BYTESPERBLOCK st inum c n buf f], rfl, rfl, rfl, rfl, rfl,
        ?_, ?_, ?_, ?_, ?_⟩
      · simp [writePassState, writeEvents, writePassIter]
      · rw [map_range_succ (fun x => x)]
        simp [writePassIter]
      · intro it hit
        rw [List.mem_singleton.mp hit]
        exact ⟨rfl, rfl, rfl, rfl, rfl⟩
      · intro d j hd
        simp only [writePassState, writePassIter]
        split
        · rename_i hdf
          have hw := hd f (le_refl _) hl hdf.symm
          unfold inWindow at hw
          rw [hdf]
          simp only [memcpy]
          rw [if_neg (by omega)]
        · rfl
      · intro hinj i hi1 hi2
        obtain ⟨d1, d2⟩ := div_mod_of_block (f := f) (x := c + i) hB0 (by omega) (by omega)
        rw [d1, d2]
        simp only [writePassState, writePassIter, if_true, memcpy]
        rw [if_pos (by omega)]
        congr 1
        omega

/-- The extension step leaves the open-file table as it is. -/
theorem fsWriteStart_g_oft (E : Bfs) (st : FS) (fd L : Int) :
    (fsWriteStart E st fd L).g_oft = st.g_oft := by
  unfold fsWriteStart fsWriteExtend
  split <;> rfl

/-- The extension step makes no pass of a block loop. -/
theorem fsWriteStart_iters (E : Bfs) (st : FS) (fd L : Int) :
    (fsWriteStart E st fd L).iters = st.iters := by
  unfold fsWriteStart fsWriteExtend
  split <;> rfl

/-- The size set at the entry of the write loop, the request ending within `i32`. -/
theorem fsWriteStart_size (E : Bfs) (st : FS) (fd L : Int) (hc : 0 ≤ fsTell E st fd)
    (hL : 0 ≤ L) (hcL : fsTell E st fd + L ≤ I32_MAX) :
    (fsWriteStart E st fd L).size = fun i =>
      if i = E.bfsFdToInum fd ∧ fsTell E st fd + L > fsSize E st fd
      then fsTell E st fd + L else st.size i := by
  have hT : bfsTell E st fd = fsTell E st fd := rfl
  have hS : bfsGetSize st (E.bfsFdToInum fd) = fsSize E st fd := rfl
  have e : add32 (fsTell E st fd) L = fsTell E st fd + L :=
    wrap32_of_range (by unfold I32_MIN; omega) hcL
  unfold fsWriteStart fsWriteExtend
  simp only [hT, hS, e]
  funext i
  split
  · rename_i h
    simp [bfsSetSize, bfsExtend, h]
  · rename_i h
    simp [h]

/-- The collaborator calls made before the write loop. -/
theorem fsWriteStart_log (E : Bfs) (st : FS) (fd L : Int) (hB0 : 0 < E.BYTESPERBLOCK)
    (hc : 0 ≤ fsTell E st fd) (hL : 0 ≤ L) (hcL : fsTell E st fd + L ≤ I32_MAX) :
    (fsWriteStart E st fd L).log = st.log ++
      (if fsTell E st fd + L > fsSize E st fd then
        [Event.bfsExtend (E.bfsFdToInum fd) ((fsTell E st fd + L) / E.BYTESPERBLOCK),
         Event.bfsSetSize (E.bfsFdToInum fd) (fsTell E st fd + L)]
       else []) ∧
    (fsTell E st fd + L ≤ fsSize E st fd → fsWriteStart E st fd L = st) := by
  have hT : bfsTell E st fd = fsTell E st fd := rfl
  have hS : bfsGetSize st (E.bfsFdToInum fd) = fsSize E st fd := rfl
  have e : add32 (fsTell E st fd) L = fsTell E st fd + L :=
    wrap32_of_range (by unfold I32_MIN; omega) hcL
  have e3 : div32 (fsTell E st fd + L) E.BYTESPERBLOCK
      = (fsTell E st fd + L) / E.BYTESPERBLOCK :=
    div32_of_nonneg (by omega) hcL hB0
  unfold fsWriteStart fsWriteExtend
  simp only [hT, hS, e, e3]
  constructor
  · split
    · simp only [bfsSetSize, bfsExtend, List.append_assoc, List.singleton_append]
    · simp
  · intro h
    rw [if_neg (by omega)]

/-- What `fsWrite` does with the request ending within `i32`: it returns 0 with the cursor
advanced by `L`; after the entry of the loop it changes the disk, the cursor and the
ghost fields only; its passes are those of `fsWriteLoop_spec`. -/
theorem fsWrite_spec (E : Bfs) (st : FS) (fd L : Int) (buf : Bytes)
    (hB : 2 ≤ E.BYTESPERBLOCK) (hBM : E.BYTESPERBLOCK ≤ I32_MAX)
    (hc : 0 ≤ fsTell E st fd) (hL : 0 ≤ L) (hcL : fsTell E st fd + L ≤ I32_MAX) :
    ∃ st1 its,
      fsWrite E st fd L buf = Result.ok 0 st1 ∧
      st1.g_oft = (setCurs st (E.bfsFindOFTE (E.bfsFdToInum fd)) (fsTell E st fd + L)).g_oft ∧
      st1.size = (fsWriteStart E st fd L).size ∧
      st1.dbn = (fsWriteStart E st fd L).dbn ∧
      st1.iters = st.iters ++ its ∧
      st1.log = (fsWriteStart E st fd L).log ++ its.flatMap (writeEvents (E.bfsFdToInum fd)) ∧
      its.map (fun it => it.fbn)
        = (List.range ((fsTell E st fd + L) / E.BYTESPERBLOCK
              - fsTell E st fd / E.BYTESPERBLOCK + 1).toNat).map
            (fun (j : Nat) => fsTell E st fd / E.BYTESPERBLOCK + (j : Int)) ∧
      (∀ it, it ∈ its → WritePass E.BYTESPERBLOCK (fsWriteStart E st fd L) (E.bfsFdToInum fd)
        (fsTell E st fd) L buf it) ∧
      (∀ d j, (∀ g, fsTell E st fd / E.BYTESPERBLOCK ≤ g →
          g ≤ (fsTell E st fd + L) / E.BYTESPERBLOCK →
          (fsWriteStart E st fd L).dbn (E.bfsFdToInum fd) g = d →
          ¬ inWindow E.BYTESPERBLOCK (fsTell E st fd) L g j) →
        st1.disk d j = (fsWriteStart E st fd L).disk d j) ∧
      ((∀ g h, fsTell E st fd / E.BYTESPERBLOCK ≤ g →
          g ≤ (fsTell E st fd + L) / E.BYTESPERBLOCK →
          fsTell E st fd / E.BYTESPERBLOCK ≤ h →
          h ≤ (fsTell E st fd + L) / E.BYTESPERBLOCK →
          (fsWriteStart E st fd L).dbn (E.bfsFdToInum fd) g
            = (fsWriteStart E st fd L).dbn (E.bfsFdToInum fd) h → g = h) →
        ∀ i, 0 ≤ i → i < L →
          st1.disk (st1.dbn (E.bfsFdToInum fd) ((fsTell E st fd + i) / E.BYTESPERBLOCK))
            ((fsTell E st fd + i) % E.BYTESPERBLOCK) = buf i) := by
  have hB0 : 0 < E.BYTESPERBLOCK := by omega
  have hT : bfsTell E st fd = fsTell E st fd := rfl
  have e1 : add32 (fsTell E st fd) L = fsTell E st fd + L :=
    wrap32_of_range (by unfold I32_MIN; omega) hcL
  have e2 : div32 (fsTell E st fd) E.BYTESPERBLOCK = fsTell E st fd / E.BYTESPERBLOCK :=
    div32_of_nonneg hc (by omega) hB0
  have e3 : div32 (fsTell E st fd + L) E.BYTESPERBLOCK
      = (fsTell E st fd + L) / E.BYTESPERBLOCK :=
    div32_of_nonneg (by omega) hcL hB0
  have hstart : fsWriteExtend E st (E.bfsFdToInum fd) (bfsGetSize st (E.bfsFdToInum fd))
      (bfsTell E st fd) L (div32 (add32 (bfsTell E st fd) L) E.BYTESPERBLOCK)
      = fsWriteStart E st fd L := rfl
  unfold fsWrite
  simp only [hstart]
  simp only [hT, e1, e2, e3]
  have hfl : fsTell E st fd / E.BYTESPERBLOCK ≤ (fsTell E st fd + L) / E.BYTESPERBLOCK :=
    Int.ediv_le_ediv hB0 (by omega)
  obtain ⟨a1, a2⟩ := block_bounds (fsTell E st fd) hB0
  have hmax : max (fsTell E st fd) (fsTell E st fd / E.BYTESPERBLOCK * E.BYTESPERBLOCK)
      = fsTell E st fd := max_eq_left a1
  obtain ⟨st1, its, hrun, g1, g2, g3, g4, g5, g6, g7, g8, g9⟩ :=
    fsWriteLoop_spec E (E.bfsFdToInum fd) buf hB hBM hc hL hcL
      ((fsTell E st fd + L) / E.BYTESPERBLOCK - fsTell E st fd / E.BYTESPERBLOCK + 1).toNat
      (fsTell E st fd / E.BYTESPERBLOCK) (fsWriteStart E st fd L)
      (by rw [Int.toNat_of_nonneg (by omega)]) (le_refl _) hfl
  rw [hmax] at hrun g9
  rw [hrun]
  simp only [Result.andThen]
  rw [fsSeek_cur E st1 fd _ hL]
  have hg : st1.g_oft = st.g_oft := by rw [g1, fsWriteStart_g_oft]
  refine ⟨_, its, rfl, ?_, g2, g3, ?_, g5, g6, g7, g8, ?_⟩
  · have : bfsTell E st1 fd = fsTell E st fd := by
      unfold fsTell bfsTell; rw [hg]
    rw [this, e1]
    simp only [setCurs, hg]
  · show st1.iters = _
    rw [g4, fsWriteStart_iters]
  · intro hinj i hi1 hi2
    show st1.disk (st1.dbn _ _) _ = _
    rw [g3]
    exact g9 hinj i (by omega) hi2

/-! ## Claims on `fsSeek` -/

/-- C9 (as amended): for an offset `≥ 0`, `fsSeek` returns 0 and the cursor of the
descriptor's open-file-table entry becomes `offset` for `SEEK_SET`, the `i32` sum of the
old cursor and `offset` for `SEEK_CUR`, and the `i32` sum of the file size and `offset`
for `SEEK_END`; these sums are `c + offset` and `s + offset` whenever those lie within
`i32`, also past the file size (no clamping to the size). -/
theorem fsSeek_positions (E : Bfs) (st : FS) (fd offset : Int) (hoff : 0 ≤ offset) :
    (∃ st1, fsSeek E st fd offset SEEK_SET = Result.ok 0 st1 ∧
      (st1.g_oft (E.bfsFindOFTE (E.bfsFdToInum fd))).curs = offset) ∧
    (∃ st1, fsSeek E st fd offset SEEK_CUR = Result.ok 0 st1 ∧
      (st1.g_oft (E.bfsFindOFTE (E.bfsFdToInum fd))).curs
        = add32 (st.g_oft (E.bfsFindOFTE (E.bfsFdToInum fd))).curs offset ∧
      (I32_MIN ≤ (st.g_oft (E.bfsFindOFTE (E.bfsFdToInum fd))).curs + offset →
        (st.g_oft (E.bfsFindOFTE (E.bfsFdToInum fd))).curs + offset ≤ I32_MAX →
        (st1.g_oft (E.bfsFindOFTE (E.bfsFdToInum fd))).curs
          = (st.g_oft (E.bfsFindOFTE (E.bfsFdToInum fd))).curs + offset)) ∧
    (∃ st1, fsSeek E st fd offset SEEK_END = Result.ok 0 st1 ∧
      (st1.g_oft (E.bfsFindOFTE (E.bfsFdToInum fd))).curs = add32 (fsSize E st fd) offset ∧
      (I32_MIN ≤ fsSize E st fd + offset → fsSize E st fd + offset ≤ I32_MAX →
        (st1.g_oft (E.bfsFindOFTE (E.bfsFdToInum fd))).curs = fsSize E st fd + offset)) := by
  refine ⟨⟨_, fsSeek_set E st fd offset hoff, ?_⟩, ⟨_, fsSeek_cur E st fd offset hoff, ?_, ?_⟩,
    ⟨_, fsSeek_end E st fd offset hoff, ?_, ?_⟩⟩
  · simp [setCurs]
  · simp [setCurs, bfsTell]
  · intro h1 h2
    simp only [setCurs, bfsTell, if_true]
    exact wrap32_of_range h1 h2
  · simp [setCurs]
  · intro h1 h2
    simp only [setCurs, if_true]
    exact wrap32_of_range h1 h2

/-- Witness of `fsSeek_positions`: offset 700 on a cursor at 5 in a file of 10 bytes. -/
theorem fsSeek_positions_witness :
    (0 : Int) ≤ 700 ∧
    (∃ st1, fsSeek demoBfs (demoFS 5 10) 0 700 SEEK_SET = Result.ok 0 st1 ∧
      (st1.g_oft 0).curs = 700) ∧
    (∃ st1, fsSeek demoBfs (demoFS 5 10) 0 700 SEEK_CUR = Result.ok 0 st1 ∧
      (st1.g_oft 0).curs = 705) ∧
    (∃ st1, fsSeek demoBfs (demoFS 5 10) 0 700 SEEK_END = Result.ok 0 st1 ∧
      (st1.g_oft 0).curs = 710) := by
  obtain ⟨⟨s1, h1, h2⟩, ⟨s2, h3, _, h4⟩, ⟨s3, h5, _, h6⟩⟩ :=
    fsSeek_positions demoBfs (demoFS 5 10) 0 700 (by decide)
  exact ⟨by decide, ⟨s1, h1, h2⟩, ⟨s2, h3, h4 (by decide) (by decide)⟩,
    ⟨s3, h5, h6 (by decide) (by decide)⟩⟩

/-- C9 as stated fails: with the cursor at `I32_MAX`, `fsSeek(fd, 1, SEEK_CUR)` returns 0
and leaves the cursor at `I32_MIN`, not at `c + offset = 2147483648`. -/
theorem fsSeek_positions_counterexample :
    (0 : Int) ≤ 1 ∧
    (fsSeek demoBfs (demoFS 2147483647 10) 0 1 SEEK_CUR).val? = some 0 ∧
    fsTell demoBfs (demoFS 2147483647 10) 0 + 1 = 2147483648 ∧
    fsTell demoBfs (fsSeek demoBfs (demoFS 2147483647 10) 0 1 SEEK_CUR).state 0
      = -2147483648 := by
  decide

/-- C10: `fsSeek` aborts exactly when the offset is negative or `whence` is none of
`SEEK_SET`, `SEEK_CUR`, `SEEK_END`; otherwise it returns 0. The code is `EBADCURS` for
every negative offset, whatever `whence` is, and `EBADWHENCE` otherwise; the state at
the abort is the state of the call, so no cursor and no size has changed. -/
theorem fsSeek_fatal_iff (E : Bfs) (st : FS) (fd offset whence : Int) :
    ((fsSeek E st fd offset whence).fatal?.isSome = true ↔
      (offset < 0 ∨ (whence ≠ SEEK_SET ∧ whence ≠ SEEK_CUR ∧ whence ≠ SEEK_END))) ∧
    ((fsSeek E st fd offset whence).fatal?.isSome = false →
      (fsSeek E st fd offset whence).val? = some 0) ∧
    (offset < 0 → fsSeek E st fd offset whence = Result.fatal Err.EBADCURS st) ∧
    (0 ≤ offset → whence ≠ SEEK_SET → whence ≠ SEEK_CUR → whence ≠ SEEK_END →
      fsSeek E st fd offset whence = Result.fatal Err.EBADWHENCE st) ∧
    ((fsSeek E st fd offset whence).fatal?.isSome = true →
      (fsSeek E st fd offset whence).state = st) := by
  by_cases h0 : offset < 0
  · rw [fsSeek_neg E st fd offset whence h0]
    simp [Result.fatal?, Result.state, Result.val?, h0]
  · have h0' : 0 ≤ offset := by omega
    by_cases h1 : whence = SEEK_SET
    · rw [h1, fsSeek_set E st fd offset h0']
      simp [Result.fatal?, Result.val?, h0]
    · by_cases h2 : whence = SEEK_CUR
      · rw [h2, fsSeek_cur E st fd offset h0']
        simp [Result.fatal?, Result.val?, h0]
      · by_cases h3 : whence = SEEK_END
        · rw [h3, fsSeek_end E st fd offset h0']
          simp [Result.fatal?, Result.val?, h0]
        · have hw : fsSeek E st fd offset whence = Result.fatal Err.EBADWHENCE st := by
            unfold fsSeek
            rw [if_neg h0]
            simp only [if_neg h1, if_neg h2, if_neg h3]
          rw [hw]
          simp [Result.fatal?, Result.state, Result.val?, h0, h1, h2, h3]

/-! ## Claims on `fsRead` -/

/-- Byte `i` of the caller's buffer lies in the copy window of the pass for block `g`
exactly when `g` is the block of file position `c + i`. -/
theorem window_iff {B c n g i : Int} (hB : 2 ≤ B) (hBM : B ≤ I32_MAX) (hc : 0 ≤ c)
    (hn : 0 ≤ n) (hcn : c + n ≤ I32_MAX) (hg1 : c / B ≤ g) (hg2 : g ≤ (c + n) / B)
    (hi1 : 0 ≤ i) (hi2 : i < n) :
    (max c (g * B) - c ≤ i ∧
      i < max c (g * B) - c +
        (endBuffOf B c n g (max c (g * B)) (max c (g * B) - g * B) - (max c (g * B) - g * B)))
    ↔ g = (c + i) / B := by
  obtain ⟨_, _, _, _, p5, p6, p7, p8, _⟩ := pass_facts hB hBM hc hn hcn hg1 hg2
  obtain ⟨hf0, a1, a2, b1, b2, m1, m2, m3, m4, m5⟩ := block_facts hB hc hg1 hg2
  have hB0 : 0 < B := by omega
  have hcc1 : g * B ≤ max c (g * B) := le_max_right _ _
  have hcc2 : c ≤ max c (g * B) := le_max_left _ _
  constructor
  · rintro ⟨h1, h2⟩
    exact (div_mod_of_block (f := g) (x := c + i) hB0 (by omega) (by omega)).1.symm
  · intro h
    obtain ⟨x1, x2⟩ := block_bounds (c + i) hB0
    rw [← h] at x1 x2
    have hmx : max c (g * B) ≤ c + i := max_le (by omega) x1
    rcases lt_or_eq_of_le hg2 with hlt | heq
    · have := p7 hlt
      omega
    · have := p8 heq
      omega

/-- C2, the code at the failing input: with the cursor at 600 in a file of 10 bytes,
`fsRead(fd, 5, buf)` clamps `numb` to `10 - 600`, skips the loop and aborts in `fsSeek`
with `EBADCURS`; with the cursor at 20 in the same block as the end of the file the loop
runs `memcpy` with the negative length. Neither call returns. -/
theorem fsRead_past_eof :
    fsSize demoBfs (demoFS 600 10) 0 ≤ fsTell demoBfs (demoFS 600 10) 0 ∧
    (fsRead demoBfs (demoFS 600 10) 0 5 sevens).fatal? = some Err.EBADCURS ∧
    (fsRead demoBfs (demoFS 600 10) 0 5 sevens).val?.map Prod.fst = none ∧
    fsSize demoBfs (demoFS 20 10) 0 ≤ fsTell demoBfs (demoFS 20 10) 0 ∧
    (fsRead demoBfs (demoFS 20 10) 0 5 sevens).isFault = true ∧
    (fsRead demoBfs (demoFS 20 10) 0 5 sevens).val?.map Prod.fst = none := by
  decide

/-- C3 (as amended): with `0 ≤ cursor ≤ size`, `0 ≤ L` and `cursor + L` within `i32`,
`fsRead` returns exactly `min L (size - cursor)`: never more than `size - cursor`, and
exactly `size - cursor` when `cursor + L > size`. -/
theorem fsRead_returns_clamped (E : Bfs) (st : FS) (fd L : Int) (buf : Bytes)
    (hB : 2 ≤ E.BYTESPERBLOCK) (hBM : E.BYTESPERBLOCK ≤ I32_MAX)
    (hc : 0 ≤ fsTell E st fd) (hcs : fsTell E st fd ≤ fsSize E st fd) (hL : 0 ≤ L)
    (hcL : fsTell E st fd + L ≤ I32_MAX) :
    (fsRead E st fd L buf).val?.map Prod.fst
      = some (min L (fsSize E st fd - fsTell E st fd)) ∧
    min L (fsSize E st fd - fsTell E st fd) ≤ fsSize E st fd - fsTell E st fd ∧
    (fsTell E st fd + L > fsSize E st fd →
      (fsRead E st fd L buf).val?.map Prod.fst = some (fsSize E st fd - fsTell E st fd)) := by
  obtain ⟨buf1, st1, hrun, _⟩ := fsRead_spec E st fd L buf hB hBM hc hcs hL hcL
  rw [hrun]
  unfold clampedLength
  refine ⟨rfl, min_le_right _ _, ?_⟩
  intro h
  simp only [Result.val?, Option.map_some']
  rw [min_eq_right (by omega)]

/-- Witness of `fsRead_returns_clamped`: 20 bytes requested at cursor 3 of a file of 10
bytes. -/
theorem fsRead_returns_clamped_witness :
    (2 ≤ demoBfs.BYTESPERBLOCK ∧ demoBfs.BYTESPERBLOCK ≤ I32_MAX ∧
      0 ≤ fsTell demoBfs (demoFS 3 10) 0 ∧
      fsTell demoBfs (demoFS 3 10) 0 ≤ fsSize demoBfs (demoFS 3 10) 0 ∧ (0 : Int) ≤ 20 ∧
      fsTell demoBfs (demoFS 3 10) 0 + 20 ≤ I32_MAX) ∧
    (fsRead demoBfs (demoFS 3 10) 0 20 sevens).val?.map Prod.fst = some 7 :=
  ⟨by decide,
    (fsRead_returns_clamped demoBfs (demoFS 3 10) 0 20 sevens (by decide) (by decide)
      (by decide) (by decide) (by decide) (by decide)).1⟩

/-- C3 as stated fails: at cursor 1 of a file of 10 bytes a request of `I32_MAX` bytes
makes `cursor + numb` wrap, the clamp is skipped and `fsRead` returns `I32_MAX`, not
`min L (size - cursor) = 9`. -/
theorem fsRead_returns_clamped_counterexample :
    (0 ≤ fsTell demoBfs (demoFS 1 10) 0 ∧
      fsTell demoBfs (demoFS 1 10) 0 ≤ fsSize demoBfs (demoFS 1 10) 0 ∧
      (0 : Int) ≤ 2147483647) ∧
    (fsRead demoBfs (demoFS 1 10) 0 2147483647 sevens).val?.map Prod.fst
      = some 2147483647 ∧
    min 2147483647 (fsSize demoBfs (demoFS 1 10) 0 - fsTell demoBfs (demoFS 1 10) 0) = 9 := by
  decide

/-- C4 (as amended): with `0 ≤ cursor ≤ size`, `0 ≤ L` and `cursor + L` within `i32`,
`fsRead` returns `n = min L (size - cursor)` and byte `i < n` of the buffer is byte
`(cursor + i) mod BYTESPERBLOCK` of the block `bfsRead` delivers for FBN
`(cursor + i) / BYTESPERBLOCK`; the loop makes one pass for each FBN from
`cursor / BYTESPERBLOCK` to `(cursor + n) / BYTESPERBLOCK`, and byte `i` is in the window
of exactly the pass for its block; bytes before index 0 are kept, and so are the bytes
from index `n` on when the end of the last block touched lies within `i32`. -/
theorem fsRead_copies_file_bytes (E : Bfs) (st : FS) (fd L : Int) (buf : Bytes)
    (hB : 2 ≤ E.BYTESPERBLOCK) (hBM : E.BYTESPERBLOCK ≤ I32_MAX)
    (hc : 0 ≤ fsTell E st fd) (hcs : fsTell E st fd ≤ fsSize E st fd) (hL : 0 ≤ L)
    (hcL : fsTell E st fd + L ≤ I32_MAX) :
    ∃ n buf1 st1 its,
      fsRead E st fd L buf = Result.ok (n, buf1) st1 ∧
      n = min L (fsSize E st fd - fsTell E st fd) ∧
      (∀ i, 0 ≤ i → i < n →
        buf1 i = (bfsRead st (E.bfsFdToInum fd) ((fsTell E st fd + i) / E.BYTESPERBLOCK)).1
          ((fsTell E st fd + i) % E.BYTESPERBLOCK)) ∧
      st1.iters = st.iters ++ its ∧
      its.map (fun it => it.fbn)
        = (List.range ((fsTell E st fd + n) / E.BYTESPERBLOCK
              - fsTell E st fd / E.BYTESPERBLOCK + 1).toNat).map
            (fun (j : Nat) => fsTell E st fd / E.BYTESPERBLOCK + (j : Int)) ∧
      (∀ it, it ∈ its → ∀ i, 0 ≤ i → i < n →
        ((it.off ≤ i ∧ i < it.off + (it.endBuff - it.startBuff))
          ↔ it.fbn = (fsTell E st fd + i) / E.BYTESPERBLOCK)) ∧
      (∀ i, i < 0 → buf1 i = buf i) ∧
      ((fsTell E st fd + n) / E.BYTESPERBLOCK * E.BYTESPERBLOCK + E.BYTESPERBLOCK ≤ I32_MAX →
        ∀ i, n ≤ i → buf1 i = buf i) := by
  obtain ⟨buf1, st1, hrun, g1, g2, g3, g4, g5, g6, g7, g8, g9⟩ :=
    fsRead_spec E st fd L buf hB hBM hc hcs hL hcL
  have hB0 : 0 < E.BYTESPERBLOCK := by omega
  have hn0 : 0 ≤ clampedLength E st fd L := by
    unfold clampedLength; exact le_min hL (by omega)
  have hnL : clampedLength E st fd L ≤ L := by
    unfold clampedLength; exact min_le_left _ _
  refine ⟨clampedLength E st fd L, buf1, st1, _, hrun, rfl, g8, g6, ?_, ?_, g7, g9⟩
  · rw [List.map_map]
    rfl
  · intro it hit i hi1 hi2
    obtain ⟨j, hj, rfl⟩ := List.mem_map.mp hit
    have hjk := List.mem_range.mp hj
    have hfl : fsTell E st fd / E.BYTESPERBLOCK
        ≤ (fsTell E st fd + clampedLength E st fd L) / E.BYTESPERBLOCK :=
      Int.ediv_le_ediv hB0 (by omega)
    have hjk2 : (j : Int) < (fsTell E st fd + clampedLength E st fd L) / E.BYTESPERBLOCK
        - fsTell E st fd / E.BYTESPERBLOCK + 1 := by
      have := Int.toNat_of_nonneg (a := (fsTell E st fd + clampedLength E st fd L)
        / E.BYTESPERBLOCK - fsTell E st fd / E.BYTESPERBLOCK + 1) (by omega)
      omega
    exact window_iff hB hBM hc hn0 (by omega) (by omega) (by omega) hi1 hi2

/-- Witness of `fsRead_copies_file_bytes`: 20 bytes requested at cursor 3 of a file of 10
bytes whose blocks hold zeros. -/
theorem fsRead_copies_file_bytes_witness :
    (2 ≤ demoBfs.BYTESPERBLOCK ∧ demoBfs.BYTESPERBLOCK ≤ I32_MAX ∧
      0 ≤ fsTell demoBfs (demoFS 3 10) 0 ∧
      fsTell demoBfs (demoFS 3 10) 0 ≤ fsSize demoBfs (demoFS 3 10) 0 ∧ (0 : Int) ≤ 20 ∧
      fsTell demoBfs (demoFS 3 10) 0 + 20 ≤ I32_MAX) ∧
    ∃ buf1 st1, fsRead demoBfs (demoFS 3 10) 0 20 sevens = Result.ok (7, buf1) st1 ∧
      (∀ i, 0 ≤ i → i < 7 → buf1 i = 0) ∧ (∀ i, 7 ≤ i → buf1 i = 7) := by
  obtain ⟨n, buf1, st1, its, hrun, hn, hcont, _, _, _, _, hframe⟩ :=
    fsRead_copies_file_bytes demoBfs (demoFS 3 10) 0 20 sevens (by decide) (by decide)
      (by decide) (by decide) (by decide) (by decide)
  have h7 : n = 7 := by rw [hn]; decide
  subst h7
  exact ⟨by decide, buf1, st1, hrun, fun i h1 h2 => hcont i h1 h2,
    fun i h => hframe (by decide) i h⟩

/-- C4 as stated fails. At cursor 1 of a file of 10 bytes a request of `I32_MAX` bytes
makes `cursor + numb` wrap; `fsRead` returns `n = I32_MAX` without a pass of the loop,
so byte 0 of the buffer keeps its 7 while the file byte at position 1 is 0. And at
cursor `2147483136`, the start of the last block within `i32`, a request of 10 bytes
returns `n = 10` after `(currFBN + 1) * BYTESPERBLOCK` has wrapped and the whole block
has been copied: byte 10 of the buffer, which was 7, is written with the 0 of the
block. -/
theorem fsRead_copies_file_bytes_counterexample :
    ((0 ≤ fsTell demoBfs (demoFS 1 10) 0 ∧
        fsTell demoBfs (demoFS 1 10) 0 ≤ fsSize demoBfs (demoFS 1 10) 0 ∧
        (0 : Int) ≤ 2147483647) ∧
      (fsRead demoBfs (demoFS 1 10) 0 2147483647 sevens).val?.map (fun p => (p.1, p.2 0))
        = some (2147483647, 7) ∧
      (bfsRead (demoFS 1 10) 0 ((fsTell demoBfs (demoFS 1 10) 0 + 0) / 512)).1
        ((fsTell demoBfs (demoFS 1 10) 0 + 0) % 512) = 0) ∧
    ((0 ≤ fsTell demoBfs (demoFS 2147483136 2147483647) 0 ∧
        fsTell demoBfs (demoFS 2147483136 2147483647) 0
          ≤ fsSize demoBfs (demoFS 2147483136 2147483647) 0 ∧
        (0 : Int) ≤ 10) ∧
      (fsRead demoBfs (demoFS 2147483136 2147483647) 0 10 sevens).val?.map
          (fun p => (p.1, p.2 10)) = some (10, 0) ∧
      sevens 10 = 7) := by
  decide

/-! ## Claims on `fsWrite` -/

/-- C5 (as amended): with `0 ≤ cursor`, `0 ≤ L`, `cursor + L` within `i32` and the FBN
to DBN map in force in the loop injective on the FBNs from `cursor / BYTESPERBLOCK` to
`(cursor + L) / BYTESPERBLOCK`, `fsWrite` returns 0 and afterwards, for every `i < L`,
byte `(cursor + i) mod BYTESPERBLOCK` of the block `bfsFbnToDbn` gives for FBN
`(cursor + i) / BYTESPERBLOCK` is byte `i` of the caller's buffer: nothing is truncated. -/
theorem fsWrite_stores_range (E : Bfs) (st : FS) (fd L : Int) (buf : Bytes)
    (hB : 2 ≤ E.BYTESPERBLOCK) (hBM : E.BYTESPERBLOCK ≤ I32_MAX)
    (hc : 0 ≤ fsTell E st fd) (hL : 0 ≤ L) (hcL : fsTell E st fd + L ≤ I32_MAX)
    (hinj : ∀ g h, fsTell E st fd / E.BYTESPERBLOCK ≤ g →
      g ≤ (fsTell E st fd + L) / E.BYTESPERBLOCK →
      fsTell E st fd / E.BYTESPERBLOCK ≤ h →
      h ≤ (fsTell E st fd + L) / E.BYTESPERBLOCK →
      (fsWriteStart E st fd L).dbn (E.bfsFdToInum fd) g
        = (fsWriteStart E st fd L).dbn (E.bfsFdToInum fd) h → g = h) :
    ∃ st1, fsWrite E st fd L buf = Result.ok 0 st1 ∧
      ∀ i, 0 ≤ i → i < L →
        st1.disk (bfsFbnToDbn st1 (E.bfsFdToInum fd)
            ((fsTell E st fd + i) / E.BYTESPERBLOCK)).1
          ((fsTell E st fd + i) % E.BYTESPERBLOCK) = buf i := by
  obtain ⟨st1, its, hrun, _, _, _, _, _, _, _, _, g9⟩ :=
    fsWrite_spec E st fd L buf hB hBM hc hL hcL
  exact ⟨st1, hrun, fun i h1 h2 => g9 hinj i h1 h2⟩

/-- Witness of `fsWrite_stores_range`: 600 bytes written at cursor 500 of a file of 10
bytes, over two blocks. -/
theorem fsWrite_stores_range_witness :
    (2 ≤ demoBfs.BYTESPERBLOCK ∧ demoBfs.BYTESPERBLOCK ≤ I32_MAX ∧
      0 ≤ fsTell demoBfs (demoFS 500 10) 0 ∧ (0 : Int) ≤ 600 ∧
      fsTell demoBfs (demoFS 500 10) 0 + 600 ≤ I32_MAX) ∧
    ∃ st1, fsWrite demoBfs (demoFS 500 10) 0 600 sevens = Result.ok 0 st1 ∧
      ∀ i, 0 ≤ i → i < 600 →
        st1.disk (bfsFbnToDbn st1 0 ((fsTell demoBfs (demoFS 500 10) 0 + i) / 512)).1
          ((fsTell demoBfs (demoFS 500 10) 0 + i) % 512) = 7 :=
  ⟨by decide,
    fsWrite_stores_range demoBfs (demoFS 500 10) 0 600 sevens (by decide) (by decide)
      (by decide) (by decide) (by decide) (fun _ _ _ _ _ _ e => e)⟩

/-- C5 as stated fails: at cursor 1 a write of `I32_MAX` bytes makes `cursor + numb`
wrap; `fsWrite` returns 0 without a pass of the loop, and the byte at file position 1
is still 0, not byte 0 of the caller's buffer, which is 7. -/
theorem fsWrite_stores_range_counterexample :
    (0 ≤ fsTell demoBfs (demoFS 1 10) 0 ∧ (0 : Int) ≤ 2147483647) ∧
    (∀ g h : Int, (fsWriteStart demoBfs (demoFS 1 10) 0 2147483647).dbn 0 g
      = (fsWriteStart demoBfs (demoFS 1 10) 0 2147483647).dbn 0 h → g = h) ∧
    (fsWrite demoBfs (demoFS 1 10) 0 2147483647 sevens).val? = some 0 ∧
    (fsWrite demoBfs (demoFS 1 10) 0 2147483647 sevens).state.disk
        (bfsFbnToDbn (fsWrite demoBfs (demoFS 1 10) 0 2147483647 sevens).state 0
          ((fsTell demoBfs (demoFS 1 10) 0 + 0) / 512)).1
        ((fsTell demoBfs (demoFS 1 10) 0 + 0) % 512) = 0 ∧
    sevens 0 = 7 :=
  ⟨by decide, fun _ _ e => e, by decide, by decide, by decide⟩

/-- C6 (as amended): with `0 ≤ cursor`, `0 ≤ L` and the end of the last block touched
within `i32`, `fsWrite` returns 0; each pass of its loop is on an FBN `f` with
`cursor / BYTESPERBLOCK ≤ f ≤ (cursor + L) / BYTESPERBLOCK`, and the block it writes
back has, at every byte whose file position lies outside `[cursor, cursor + L)`, the
value `bfsRead` delivered in that pass (the whole block when the window is empty);
`bioWrite` is called on the blocks `bfsFbnToDbn(inum, f)` of those passes only, and a
byte of the disk outside the written range is the same after the call as at the entry
of the loop. -/
theorem fsWrite_preserves_outside (E : Bfs) (st : FS) (fd L : Int) (buf : Bytes)
    (hB : 2 ≤ E.BYTESPERBLOCK) (hc : 0 ≤ fsTell E st fd) (hL : 0 ≤ L)
    (hex : (fsTell E st fd + L) / E.BYTESPERBLOCK * E.BYTESPERBLOCK + E.BYTESPERBLOCK
      ≤ I32_MAX) :
    ∃ st1 its, fsWrite E st fd L buf = Result.ok 0 st1 ∧
      st1.iters = st.iters ++ its ∧
      st1.log = (fsWriteStart E st fd L).log ++ its.flatMap (writeEvents (E.bfsFdToInum fd)) ∧
      (∀ it, it ∈ its →
        fsTell E st fd / E.BYTESPERBLOCK ≤ it.fbn ∧
        it.fbn ≤ (fsTell E st fd + L) / E.BYTESPERBLOCK ∧
        it.dbn = (bfsFbnToDbn (fsWriteStart E st fd L) (E.bfsFdToInum fd) it.fbn).1 ∧
        ∀ j, ¬ (fsTell E st fd ≤ it.fbn * E.BYTESPERBLOCK + j ∧
            it.fbn * E.BYTESPERBLOCK + j < fsTell E st fd + L) →
          it.blkOut j = it.blkIn j) ∧
      (∀ d, Event.bioWrite d ∈ its.flatMap (writeEvents (E.bfsFdToInum fd)) →
        ∃ f, fsTell E st fd / E.BYTESPERBLOCK ≤ f ∧
          f ≤ (fsTell E st fd + L) / E.BYTESPERBLOCK ∧
          d = (bfsFbnToDbn (fsWriteStart E st fd L) (E.bfsFdToInum fd) f).1) ∧
      (∀ d j, (∀ f, fsTell E st fd / E.BYTESPERBLOCK ≤ f →
          f ≤ (fsTell E st fd + L) / E.BYTESPERBLOCK →
          (fsWriteStart E st fd L).dbn (E.bfsFdToInum fd) f = d →
          ¬ (fsTell E st fd ≤ f * E.BYTESPERBLOCK + j ∧
            f * E.BYTESPERBLOCK + j < fsTell E st fd + L)) →
        st1.disk d j = (fsWriteStart E st fd L).disk d j) := by
  have hB0 : 0 < E.BYTESPERBLOCK := by omega
  obtain ⟨x1, x2⟩ := block_bounds (fsTell E st fd + L) hB0
  have hl0 : 0 ≤ (fsTell E st fd + L) / E.BYTESPERBLOCK :=
    Int.ediv_nonneg (by omega) (le_of_lt hB0)
  have hlB : 0 ≤ (fsTell E st fd + L) / E.BYTESPERBLOCK * E.BYTESPERBLOCK :=
    Int.mul_nonneg hl0 (le_of_lt hB0)
  have hcL : fsTell E st fd + L ≤ I32_MAX := by omega
  have hBM : E.BYTESPERBLOCK ≤ I32_MAX := by omega
  obtain ⟨st1, its, hrun, g1, g2, g3, g4, g5, g6, g7, g8, g9⟩ :=
    fsWrite_spec E st fd L buf hB hBM hc hL hcL
  have hfl : fsTell E st fd / E.BYTESPERBLOCK ≤ (fsTell E st fd + L) / E.BYTESPERBLOCK :=
    Int.ediv_le_ediv hB0 (by omega)
  -- the FBN of a pass
  have hrange : ∀ it, it ∈ its → fsTell E st fd / E.BYTESPERBLOCK ≤ it.fbn ∧
      it.fbn ≤ (fsTell E st fd + L) / E.BYTESPERBLOCK := by
    intro it hit
    have hm : it.fbn ∈ its.map (fun it => it.fbn) := List.mem_map.mpr ⟨it, hit, rfl⟩
    rw [g6] at hm
    obtain ⟨j, hj, hje⟩ := List.mem_map.mp hm
    have hjk := List.mem_range.mp hj
    have := Int.toNat_of_nonneg (a := (fsTell E st fd + L) / E.BYTESPERBLOCK
      - fsTell E st fd / E.BYTESPERBLOCK + 1) (by omega)
    constructor <;> omega
  -- a byte in the window of a pass has its file position in the written range
  have hwin : ∀ g j, fsTell E st fd / E.BYTESPERBLOCK ≤ g →
      g ≤ (fsTell E st fd + L) / E.BYTESPERBLOCK →
      inWindow E.BYTESPERBLOCK (fsTell E st fd) L g j →
      fsTell E st fd ≤ g * E.BYTESPERBLOCK + j ∧
        g * E.BYTESPERBLOCK + j < fsTell E st fd + L := by
    intro g j hg1 hg2 hw
    obtain ⟨_, _, _, _, _, _, _, _, p9⟩ := pass_facts hB hBM hc hL hcL hg1 hg2
    have h9 := p9 hex
    unfold inWindow at hw
    rw [h9] at hw
    have hcc2 : fsTell E st fd ≤ max (fsTell E st fd) (g * E.BYTESPERBLOCK) := le_max_left _ _
    have hmn : min (fsTell E st fd + L) (g * E.BYTESPERBLOCK + E.BYTESPERBLOCK)
        ≤ fsTell E st fd + L := min_le_left _ _
    omega
  refine ⟨st1, its, hrun, g4, g5, ?_, ?_, ?_⟩
  · intro it hit
    obtain ⟨r1, r2⟩ := hrange it hit
    obtain ⟨w1, w2, w3, w4, w5⟩ := g7 it hit
    refine ⟨r1, r2, w1, ?_⟩
    intro j hj
    have hnw : ¬ inWindow E.BYTESPERBLOCK (fsTell E st fd) L it.fbn j :=
      fun hw => hj (hwin it.fbn j r1 r2 hw)
    unfold inWindow at hnw
    rw [← w3, ← w2] at hnw
    rw [w5]
    simp only [memcpy]
    rw [if_neg (by omega)]
  · intro d hd
    obtain ⟨it, hit, hev⟩ := List.mem_flatMap.mp hd
    obtain ⟨r1, r2⟩ := hrange it hit
    obtain ⟨w1, _⟩ := g7 it hit
    simp only [writeEvents, List.mem_cons, List.mem_singleton, Event.bioWrite.injEq,
      List.not_mem_nil, or_false] at hev
    rcases hev with h | h | h
    · cases h
    · cases h
    · exact ⟨it.fbn, r1, r2, by rw [h, w1]; rfl⟩
  · intro d j hd
    exact g8 d j (fun g hg1 hg2 hg3 hw => hd g hg1 hg2 hg3 (hwin g j hg1 hg2 hw))

/-- Witness of `fsWrite_preserves_outside`: 600 bytes written at cursor 500. -/
theorem fsWrite_preserves_outside_witness :
    (2 ≤ demoBfs.BYTESPERBLOCK ∧ 0 ≤ fsTell demoBfs (demoFS 500 10) 0 ∧ (0 : Int) ≤ 600 ∧
      (fsTell demoBfs (demoFS 500 10) 0 + 600) / demoBfs.BYTESPERBLOCK
        * demoBfs.BYTESPERBLOCK + demoBfs.BYTESPERBLOCK ≤ I32_MAX) ∧
    ∃ st1, fsWrite demoBfs (demoFS 500 10) 0 600 sevens = Result.ok 0 st1 ∧
      ∀ d j, (∀ f, (0 : Int) ≤ f → f ≤ 2 → f = d →
          ¬ (500 ≤ f * 512 + j ∧ f * 512 + j < 1100)) →
        st1.disk d j = 0 := by
  obtain ⟨st1, its, hrun, _, _, _, _, hframe⟩ :=
    fsWrite_preserves_outside demoBfs (demoFS 500 10) 0 600 sevens (by decide) (by decide)
      (by decide) (by decide)
  exact ⟨by decide, st1, hrun, fun d j h => hframe d j h⟩

/-- C6 as stated fails: with the cursor at `2147483136`, the start of the last block
within `i32`, a write of 10 bytes computes `(currFBN + 1) * BYTESPERBLOCK`, which wraps,
takes `endBuff = BYTESPERBLOCK` and overwrites the whole block: byte 10 of the block,
at a file position outside `[cursor, cursor + 10)`, was delivered as 0 by `bfsRead` and
is 7 in the block written back. -/
theorem fsWrite_preserves_outside_counterexample :
    (0 ≤ fsTell demoBfs (demoFS 2147483136 2147483647) 0 ∧ (0 : Int) ≤ 10) ∧
    (fsWrite demoBfs (demoFS 2147483136 2147483647) 0 10 sevens).val? = some 0 ∧
    ¬ (fsTell demoBfs (demoFS 2147483136 2147483647) 0 ≤ 4194303 * 512 + 10 ∧
      (4194303 * 512 + 10 : Int) < fsTell demoBfs (demoFS 2147483136 2147483647) 0 + 10) ∧
    (bfsRead (demoFS 2147483136 2147483647) 0 4194303).1 10 = 0 ∧
    (fsWrite demoBfs (demoFS 2147483136 2147483647) 0 10 sevens).state.iters.map
        (fun it => (it.fbn, it.startBuff, it.endBuff, it.blkIn 10, it.blkOut 10))
      = [(4194303, 0, 512, 0, 7)] ∧
    (fsWrite demoBfs (demoFS 2147483136 2147483647) 0 10 sevens).state.disk
      ((demoFS 2147483136 2147483647).dbn 0 4194303) 10 = 7 := by
  decide

/-- C7 (as amended): with `0 ≤ cursor`, `0 ≤ L` and `cursor + L` within `i32`, `fsWrite`
returns 0 and the file size afterwards is `max size (cursor + L)`: exactly `cursor + L`
when `cursor + L > size`, and unchanged, for every inode and without a call of
`bfsExtend` or `bfsSetSize`, when `cursor + L ≤ size`; the size never decreases. -/
theorem fsWrite_size_high_water (E : Bfs) (st : FS) (fd L : Int) (buf : Bytes)
    (hB : 2 ≤ E.BYTESPERBLOCK) (hBM : E.BYTESPERBLOCK ≤ I32_MAX)
    (hc : 0 ≤ fsTell E st fd) (hL : 0 ≤ L) (hcL : fsTell E st fd + L ≤ I32_MAX) :
    ∃ st1 evs, fsWrite E st fd L buf = Result.ok 0 st1 ∧
      st1.log = st.log ++ evs ∧
      fsSize E st1 fd = max (fsSize E st fd) (fsTell E st fd + L) ∧
      (fsTell E st fd + L > fsSize E st fd → fsSize E st1 fd = fsTell E st fd + L) ∧
      (fsTell E st fd + L ≤ fsSize E st fd →
        st1.size = st.size ∧
        ∀ i v, Event.bfsSetSize i v ∉ evs ∧ Event.bfsExtend i v ∉ evs) ∧
      fsSize E st fd ≤ fsSize E st1 fd := by
  have hB0 : 0 < E.BYTESPERBLOCK := by omega
  obtain ⟨st1, its, hrun, g1, g2, g3, g4, g5, g6, g7, g8, g9⟩ :=
    fsWrite_spec E st fd L buf hB hBM hc hL hcL
  obtain ⟨l1, l2⟩ := fsWriteStart_log E st fd L hB0 hc hL hcL
  have hsz : fsSize E st1 fd = if fsTell E st fd + L > fsSize E st fd
      then fsTell E st fd + L else fsSize E st fd := by
    show st1.size (E.bfsFdToInum fd) = _
    rw [g2, fsWriteStart_size E st fd L hc hL hcL]
    by_cases h : fsTell E st fd + L > fsSize E st fd
    · simp [h]
    · simp [h, fsSize, bfsGetSize]
  refine ⟨st1,
    (if fsTell E st fd + L > fsSize E st fd then
        [Event.bfsExtend (E.bfsFdToInum fd) ((fsTell E st fd + L) / E.BYTESPERBLOCK),
         Event.bfsSetSize (E.bfsFdToInum fd) (fsTell E st fd + L)]
      else []) ++ its.flatMap (writeEvents (E.bfsFdToInum fd)),
    hrun, ?_, ?_, ?_, ?_, ?_⟩
  · rw [g5, l1, List.append_assoc]
  · rw [hsz]
    split
    · rw [max_eq_right (by omega)]
    · rw [max_eq_left (by omega)]
  · intro h
    rw [hsz, if_pos h]
  · intro h
    refine ⟨by rw [g2, l2 h], ?_⟩
    intro i v
    rw [if_neg (by omega), List.nil_append]
    constructor
    · intro hm
      obtain ⟨it, _, hev⟩ := List.mem_flatMap.mp hm
      simp only [writeEvents, List.mem_cons, List.mem_singleton, List.not_mem_nil,
        or_false] at hev
      rcases hev with h | h | h <;> cases h
    · intro hm
      obtain ⟨it, _, hev⟩ := List.mem_flatMap.mp hm
      simp only [writeEvents, List.mem_cons, List.mem_singleton, List.not_mem_nil,
        or_false] at hev
      rcases hev with h | h | h <;> cases h
  · rw [hsz]
    split <;> omega

/-- Witness of `fsWrite_size_high_water`: 600 bytes written at cursor 500 of a file of
10 bytes. -/
theorem fsWrite_size_high_water_witness :
    (2 ≤ demoBfs.BYTESPERBLOCK ∧ demoBfs.BYTESPERBLOCK ≤ I32_MAX ∧
      0 ≤ fsTell demoBfs (demoFS 500 10) 0 ∧ (0 : Int) ≤ 600 ∧
      fsTell demoBfs (demoFS 500 10) 0 + 600 ≤ I32_MAX) ∧
    ∃ st1, fsWrite demoBfs (demoFS 500 10) 0 600 sevens = Result.ok 0 st1 ∧
      fsSize demoBfs st1 0 = 1100 := by
  obtain ⟨st1, _, hrun, _, _, hsz, _⟩ :=
    fsWrite_size_high_water demoBfs (demoFS 500 10) 0 600 sevens (by decide) (by decide)
      (by decide) (by decide) (by decide)
  exact ⟨by decide, st1, hrun, hsz (by decide)⟩

/-- C7 as stated fails: at cursor 1 of a file of 10 bytes a write of `I32_MAX` bytes has
`cursor + L = 2147483648 > size`, but `cursor + numb` wraps, the extension is skipped,
`fsWrite` returns 0 and the size is still 10. -/
theorem fsWrite_size_high_water_counterexample :
    (0 ≤ fsTell demoBfs (demoFS 1 10) 0 ∧ (0 : Int) ≤ 2147483647) ∧
    (fsWrite demoBfs (demoFS 1 10) 0 2147483647 sevens).val? = some 0 ∧
    fsTell demoBfs (demoFS 1 10) 0 + 2147483647 > fsSize demoBfs (demoFS 1 10) 0 ∧
    fsTell demoBfs (demoFS 1 10) 0 + 2147483647 = 2147483648 ∧
    fsSize demoBfs (fsWrite demoBfs (demoFS 1 10) 0 2147483647 sevens).state 0 = 10 := by
  decide

/-! ## Cursor advancement and the round trip -/

/-- C8 (as amended): with `0 ≤ cursor`, `0 ≤ L` and `cursor + L` within `i32`, after
`fsWrite(fd, L, data)` `fsTell(fd)` is `cursor + L`; and when moreover `cursor ≤ size`,
after `fsRead(fd, L, buf)` has returned `n` it is `cursor + n`, where `n` is the number
of bytes copied, `min L (size - cursor)`. -/
theorem cursor_advances (E : Bfs) (st : FS) (fd L : Int) (buf : Bytes)
    (hB : 2 ≤ E.BYTESPERBLOCK) (hBM : E.BYTESPERBLOCK ≤ I32_MAX)
    (hc : 0 ≤ fsTell E st fd) (hL : 0 ≤ L) (hcL : fsTell E st fd + L ≤ I32_MAX) :
    (∃ st1, fsWrite E st fd L buf = Result.ok 0 st1 ∧
      fsTell E st1 fd = fsTell E st fd + L) ∧
    (fsTell E st fd ≤ fsSize E st fd →
      ∃ n buf1 st1, fsRead E st fd L buf = Result.ok (n, buf1) st1 ∧
        n = min L (fsSize E st fd - fsTell E st fd) ∧
        fsTell E st1 fd = fsTell E st fd + n) := by
  constructor
  · obtain ⟨st1, its, hrun, g1, _⟩ := fsWrite_spec E st fd L buf hB hBM hc hL hcL
    refine ⟨st1, hrun, ?_⟩
    show (st1.g_oft _).curs = _
    rw [g1]
    simp [setCurs]
  · intro hcs
    obtain ⟨buf1, st1, hrun, g1, _⟩ := fsRead_spec E st fd L buf hB hBM hc hcs hL hcL
    refine ⟨_, buf1, st1, hrun, rfl, ?_⟩
    show (st1.g_oft _).curs = _
    rw [g1]
    simp [setCurs]

/-- Witness of `cursor_advances`: 20 bytes written, or requested to be read, at cursor 3
of a file of 10 bytes. -/
theorem cursor_advances_witness :
    (2 ≤ demoBfs.BYTESPERBLOCK ∧ demoBfs.BYTESPERBLOCK ≤ I32_MAX ∧
      0 ≤ fsTell demoBfs (demoFS 3 10) 0 ∧ (0 : Int) ≤ 20 ∧
      fsTell demoBfs (demoFS 3 10) 0 + 20 ≤ I32_MAX ∧
      fsTell demoBfs (demoFS 3 10) 0 ≤ fsSize demoBfs (demoFS 3 10) 0) ∧
    (∃ st1, fsWrite demoBfs (demoFS 3 10) 0 20 sevens = Result.ok 0 st1 ∧
      fsTell demoBfs st1 0 = 23) ∧
    (∃ buf1 st1, fsRead demoBfs (demoFS 3 10) 0 20 sevens = Result.ok (7, buf1) st1 ∧
      fsTell demoBfs st1 0 = 10) := by
  obtain ⟨⟨s1, h1, h2⟩, hr⟩ :=
    cursor_advances demoBfs (demoFS 3 10) 0 20 sevens (by decide) (by decide) (by decide)
      (by decide) (by decide)
  obtain ⟨n, buf1, s2, h3, h4, h5⟩ := hr (by decide)
  have h7 : n = 7 := by rw [h4]; decide
  subst h7
  exact ⟨by decide, ⟨s1, h1, h2⟩, ⟨buf1, s2, h3, h5⟩⟩

/-- C8 as stated fails: at cursor 1 a write of `I32_MAX` bytes returns 0 and leaves
`fsTell` at `I32_MIN`, not at `cursor + L = 2147483648`. -/
theorem cursor_advances_counterexample :
    (0 ≤ fsTell demoBfs (demoFS 1 10) 0 ∧ (0 : Int) ≤ 2147483647) ∧
    (fsWrite demoBfs (demoFS 1 10) 0 2147483647 sevens).val? = some 0 ∧
    fsTell demoBfs (fsWrite demoBfs (demoFS 1 10) 0 2147483647 sevens).state 0
      = -2147483648 ∧
    fsTell demoBfs (demoFS 1 10) 0 + 2147483647 = 2147483648 := by
  decide

/-- C1: for an offset `O ≥ 0` and a length `L ≥ 0` with `O + L` within `i32`, and the
FBN to DBN map in force in the write loop injective on the FBNs touched, the sequence
`fsSeek(fd, O, SEEK_SET); fsWrite(fd, L, data); fsSeek(fd, O, SEEK_SET);
fsRead(fd, L, buf)` makes `fsRead` return `L` and leaves `buf[0..L)` equal to
`data[0..L)`. -/
theorem roundTrip_reads_back (E : Bfs) (st : FS) (fd O L : Int) (data buf : Bytes)
    (hB : 2 ≤ E.BYTESPERBLOCK) (hBM : E.BYTESPERBLOCK ≤ I32_MAX)
    (hO : 0 ≤ O) (hL : 0 ≤ L) (hOL : O + L ≤ I32_MAX)
    (hinj : ∀ g h, O / E.BYTESPERBLOCK ≤ g → g ≤ (O + L) / E.BYTESPERBLOCK →
      O / E.BYTESPERBLOCK ≤ h → h ≤ (O + L) / E.BYTESPERBLOCK →
      (fsWriteStart E (fsSeek E st fd O SEEK_SET).state fd L).dbn (E.bfsFdToInum fd) g
        = (fsWriteStart E (fsSeek E st fd O SEEK_SET).state fd L).dbn (E.bfsFdToInum fd) h →
      g = h) :
    ∃ buf1 st1, roundTrip E st fd O L data buf = Result.ok (L, buf1) st1 ∧
      ∀ i, 0 ≤ i → i < L → buf1 i = data i := by
  unfold roundTrip
  rw [fsSeek_set E st fd O hO] at hinj ⊢
  simp only [Result.andThen, Result.state] at hinj ⊢
  generalize hs1 : setCurs st (E.bfsFindOFTE (E.bfsFdToInum fd)) O = s1 at hinj ⊢
  have ht1 : fsTell E s1 fd = O := by rw [← hs1]; exact bfsTell_setCurs E st fd O
  obtain ⟨s2, its, hrun, g1, g2, g3, g4, g5, g6, g7, g8, g9⟩ :=
    fsWrite_spec E s1 fd L data hB hBM (by omega) hL (by omega)
  rw [ht1] at g9
  have hcont := g9 hinj
  rw [hrun]
  simp only []
  rw [fsSeek_set E s2 fd O hO]
  simp only []
  generalize hs3 : setCurs s2 (E.bfsFindOFTE (E.bfsFdToInum fd)) O = s3
  have ht3 : fsTell E s3 fd = O := by rw [← hs3]; exact bfsTell_setCurs E s2 fd O
  have hsz3 : fsSize E s3 fd = if O + L > fsSize E s1 fd then O + L else fsSize E s1 fd := by
    rw [← hs3]
    show s2.size (E.bfsFdToInum fd) = _
    rw [g2, fsWriteStart_size E s1 fd L (by omega) hL (by omega), ht1]
    by_cases h : O + L > fsSize E s1 fd
    · simp [h]
    · simp [h, fsSize, bfsGetSize]
  have hge : O + L ≤ fsSize E s3 fd := by
    rw [hsz3]; split <;> omega
  obtain ⟨buf1, st1, hrd, r1, r2, r3, r4, r5, r6, r7, r8, r9⟩ :=
    fsRead_spec E s3 fd L buf hB hBM (by omega) (by omega) hL (by omega)
  have hcl : clampedLength E s3 fd L = L := by
    unfold clampedLength
    exact min_eq_left (by omega)
  rw [hcl] at hrd r8
  rw [ht3] at r8
  refine ⟨buf1, st1, hrd, ?_⟩
  intro i hi1 hi2
  rw [r8 i hi1 hi2, ← hcont i hi1 hi2, ← hs3]
  rfl

/-- Witness of `roundTrip_reads_back`: 600 bytes written at offset 500 and read back. -/
theorem roundTrip_reads_back_witness :
    (2 ≤ demoBfs.BYTESPERBLOCK ∧ demoBfs.BYTESPERBLOCK ≤ I32_MAX ∧ (0 : Int) ≤ 500 ∧
      (0 : Int) ≤ 600 ∧ (500 : Int) + 600 ≤ I32_MAX) ∧
    ∃ buf1 st1, roundTrip demoBfs (demoFS 3 10) 0 500 600 sevens (fun _ => 0)
        = Result.ok (600, buf1) st1 ∧
      ∀ i, 0 ≤ i → i < 600 → buf1 i = sevens i :=
  ⟨by decide,
    roundTrip_reads_back demoBfs (demoFS 3 10) 0 500 600 sevens (fun _ => 0) (by decide)
      (by decide) (by decide) (by decide) (by decide) (fun _ _ _ _ _ _ e => e)⟩

/-! ## What the calls leave unchanged, for every input -/

/-- The read loop, whatever its arguments and its outcome, changes the ghost fields
only, and the collaborator calls it makes are calls of `bfsRead`. -/
theorem fsReadLoop_frame (E : Bfs) (inum c n l : Int) :
    ∀ (k : Nat) (f cc : Int) (st : FS) (buf : Bytes),
      (fsReadLoop E inum c n l k f cc st buf).state.g_oft = st.g_oft ∧
      (fsReadLoop E inum c n l k f cc st buf).state.size = st.size ∧
      (fsReadLoop E inum c n l k f cc st buf).state.dbn = st.dbn ∧
      (fsReadLoop E inum c n l k f cc st buf).state.disk = st.disk ∧
      ∃ evs, (fsReadLoop E inum c n l k f cc st buf).state.log = st.log ++ evs ∧
        ∀ e, e ∈ evs → ∃ g, e = Event.bfsRead inum g := by
  intro k
  induction k with
  | zero =>
    intro f cc st buf
    rw [fsReadLoop.eq_def]
    split
    · exact ⟨rfl, rfl, rfl, rfl, [], by simp [Result.state], by simp⟩
    · exact ⟨rfl, rfl, rfl, rfl, [], by simp [Result.state], by simp⟩
  | succ k ih =>
    intro f cc st buf
    rw [fsReadLoop.eq_def]
    split
    · simp only []
      split
      · exact ⟨rfl, rfl, rfl, rfl, [Event.bfsRead inum f], by simp [Result.state, bfsRead],
          by simp⟩
      · obtain ⟨h1, h2, h3, h4, evs, h5, h6⟩ := ih (add32 f 1)
          (add32 cc (sub32 (endBuffOf E.BYTESPERBLOCK c n f cc
            (sub32 cc (mul32 f E.BYTESPERBLOCK))) (sub32 cc (mul32 f E.BYTESPERBLOCK))))
          { (bfsRead st inum f).2 with iters := (bfsRead st inum f).2.iters ++
              [{ fbn := f, dbn := st.dbn inum f,
                 startBuff := sub32 cc (mul32 f E.BYTESPERBLOCK),
                 endBuff := endBuffOf E.BYTESPERBLOCK c n f cc
                   (sub32 cc (mul32 f E.BYTESPERBLOCK)),
                 off := sub32 cc c, blkIn := (bfsRead st inum f).1,
                 blkOut := (bfsRead st inum f).1 }] }
          (memcpy buf (sub32 cc c) (bfsRead st inum f).1
            (sub32 cc (mul32 f E.BYTESPERBLOCK))
            (sub32 (endBuffOf E.BYTESPERBLOCK c n f cc
              (sub32 cc (mul32 f E.BYTESPERBLOCK))) (sub32 cc (mul32 f E.BYTESPERBLOCK))))
        refine ⟨h1, h2, h3, h4, Event.bfsRead inum f :: evs, ?_, ?_⟩
        · rw [h5]; simp [bfsRead]
        · intro e he
          rcases List.mem_cons.mp he with h | h
          · exact ⟨f, h⟩
          · exact h6 e h
    · exact ⟨rfl, rfl, rfl, rfl, [], by simp [Result.state], by simp⟩

/-- The write loop, whatever its arguments and its outcome, leaves the open-file table,
the file sizes and the FBN to DBN map as they are. -/
theorem fsWriteLoop_frame (E : Bfs) (inum c n l : Int) (buf : Bytes) :
    ∀ (k : Nat) (f cc : Int) (st : FS),
      (fsWriteLoop E inum c n l buf k f cc st).state.g_oft = st.g_oft ∧
      (fsWriteLoop E inum c n l buf k f cc st).state.size = st.size ∧
      (fsWriteLoop E inum c n l buf k f cc st).state.dbn = st.dbn := by
  intro k
  induction k with
  | zero =>
    intro f cc st
    rw [fsWriteLoop.eq_def]
    split <;> exact ⟨rfl, rfl, rfl⟩
  | succ k ih =>
    intro f cc st
    rw [fsWriteLoop.eq_def]
    split
    · simp only []
      split
      · exact ⟨rfl, rfl, rfl⟩
      · exact ih _ _ _
    · exact ⟨rfl, rfl, rfl⟩

/-- Every outcome of `fsRead`, for every input: sizes, map and disk are as before, the
collaborator calls made are calls of `bfsRead`, and the open-file table is as before
unless `fsRead` returns some `n`, which is then `≥ 0`, and the cursor of the
descriptor's entry is the `i32` sum of the old cursor and `n`. -/
theorem fsRead_frame (E : Bfs) (st : FS) (fd L : Int) (buf : Bytes) :
    (fsRead E st fd L buf).state.size = st.size ∧
    (fsRead E st fd L buf).state.dbn = st.dbn ∧
    (fsRead E st fd L buf).state.disk = st.disk ∧
    (∃ evs, (fsRead E st fd L buf).state.log = st.log ++ evs ∧
      ∀ e, e ∈ evs → ∃ g, e = Event.bfsRead (E.bfsFdToInum fd) g) ∧
    (((fsRead E st fd L buf).val?.map Prod.fst = none ∧
        (fsRead E st fd L buf).state.g_oft = st.g_oft) ∨
      ∃ n, (fsRead E st fd L buf).val?.map Prod.fst = some n ∧ 0 ≤ n ∧
        (fsRead E st fd L buf).state.g_oft
          = (setCurs st (E.bfsFindOFTE (E.bfsFdToInum fd))
              (add32 (bfsTell E st fd) n)).g_oft) := by
  unfold fsRead
  simp only []
  generalize (if add32 (bfsTell E st fd) L > bfsGetSize st (E.bfsFdToInum fd)
    then sub32 (bfsGetSize st (E.bfsFdToInum fd)) (bfsTell E st fd) else L) = n
  obtain ⟨h1, h2, h3, h4, evs, h5, h6⟩ :=
    fsReadLoop_frame E (E.bfsFdToInum fd) (bfsTell E st fd) n
      (div32 (add32 (bfsTell E st fd) n) E.BYTESPERBLOCK)
      (div32 (add32 (bfsTell E st fd) n) E.BYTESPERBLOCK
        - div32 (bfsTell E st fd) E.BYTESPERBLOCK + 1).toNat
      (div32 (bfsTell E st fd) E.BYTESPERBLOCK) (bfsTell E st fd) st buf
  generalize fsReadLoop E (E.bfsFdToInum fd) (bfsTell E st fd) n
      (div32 (add32 (bfsTell E st fd) n) E.BYTESPERBLOCK)
      (div32 (add32 (bfsTell E st fd) n) E.BYTESPERBLOCK
        - div32 (bfsTell E st fd) E.BYTESPERBLOCK + 1).toNat
      (div32 (bfsTell E st fd) E.BYTESPERBLOCK) (bfsTell E st fd) st buf = r at *
  cases r with
  | ok buf1 st1 =>
    simp only [Result.state] at h1 h2 h3 h4 h5
    simp only [Result.andThen]
    have ht : bfsTell E st1 fd = bfsTell E st fd := by unfold bfsTell; rw [h1]
    by_cases hn : n < 0
    · rw [fsSeek_neg E st1 fd n SEEK_CUR hn]
      exact ⟨h2, h3, h4, ⟨evs, h5, h6⟩, Or.inl ⟨rfl, h1⟩⟩
    · rw [fsSeek_cur E st1 fd n (by omega)]
      refine ⟨h2, h3, h4, ⟨evs, h5, h6⟩, Or.inr ⟨n, rfl, by omega, ?_⟩⟩
      simp only [Result.state, setCurs, h1, ht]
  | fatal code st1 =>
    exact ⟨h2, h3, h4, ⟨evs, h5, h6⟩, Or.inl ⟨rfl, h1⟩⟩
  | fault st1 =>
    exact ⟨h2, h3, h4, ⟨evs, h5, h6⟩, Or.inl ⟨rfl, h1⟩⟩
  | loops st1 =>
    exact ⟨h2, h3, h4, ⟨evs, h5, h6⟩, Or.inl ⟨rfl, h1⟩⟩

/-- Every outcome of `fsWrite`, for every input: the open-file table is as before unless
`fsWrite` returns, which it does with the value 0 and only for `numb ≥ 0`, and the
cursor of the descriptor's entry is then the `i32` sum of the old cursor and `numb`. -/
theorem fsWrite_frame (E : Bfs) (st : FS) (fd L : Int) (buf : Bytes) :
    ((fsWrite E st fd L buf).val? = none ∧ (fsWrite E st fd L buf).state.g_oft = st.g_oft) ∨
    ((fsWrite E st fd L buf).val? = some 0 ∧ 0 ≤ L ∧
      (fsWrite E st fd L buf).state.g_oft
        = (setCurs st (E.bfsFindOFTE (E.bfsFdToInum fd)) (add32 (bfsTell E st fd) L)).g_oft) := by
  unfold fsWrite
  simp only []
  have hstart : fsWriteExtend E st (E.bfsFdToInum fd) (bfsGetSize st (E.bfsFdToInum fd))
      (bfsTell E st fd) L (div32 (add32 (bfsTell E st fd) L) E.BYTESPERBLOCK)
      = fsWriteStart E st fd L := rfl
  rw [hstart]
  obtain ⟨h1, _, _⟩ :=
    fsWriteLoop_frame E (E.bfsFdToInum fd) (bfsTell E st fd) L
      (div32 (add32 (bfsTell E st fd) L) E.BYTESPERBLOCK) buf
      (div32 (add32 (bfsTell E st fd) L) E.BYTESPERBLOCK
        - div32 (bfsTell E st fd) E.BYTESPERBLOCK + 1).toNat
      (div32 (bfsTell E st fd) E.BYTESPERBLOCK) (bfsTell E st fd) (fsWriteStart E st fd L)
  rw [fsWriteStart_g_oft] at h1
  generalize fsWriteLoop E (E.bfsFdToInum fd) (bfsTell E st fd) L
      (div32 (add32 (bfsTell E st fd) L) E.BYTESPERBLOCK) buf
      (div32 (add32 (bfsTell E st fd) L) E.BYTESPERBLOCK
        - div32 (bfsTell E st fd) E.BYTESPERBLOCK + 1).toNat
      (div32 (bfsTell E st fd) E.BYTESPERBLOCK) (bfsTell E st fd) (fsWriteStart E st fd L)
      = r at *
  cases r with
  | ok u st1 =>
    simp only [Result.state] at h1
    simp only [Result.andThen]
    have ht : bfsTell E st1 fd = bfsTell E st fd := by unfold bfsTell; rw [h1]
    by_cases hn : L < 0
    · rw [fsSeek_neg E st1 fd L SEEK_CUR hn]
      exact Or.inl ⟨rfl, h1⟩
    · rw [fsSeek_cur E st1 fd L (by omega)]
      refine Or.inr ⟨rfl, by omega, ?_⟩
      simp only [Result.state, setCurs, h1, ht]
  | fatal code st1 => exact Or.inl ⟨rfl, h1⟩
  | fault st1 => exact Or.inl ⟨rfl, h1⟩
  | loops st1 => exact Or.inl ⟨rfl, h1⟩

/-! ## Claims on the cursors of the open-file table -/

/-- Assigning a non-negative value to one cursor keeps all cursors non-negative. -/
theorem setCurs_nonneg (st : FS) (o v : Int) (hinv : ∀ i, 0 ≤ (st.g_oft i).curs)
    (hv : 0 ≤ v) : ∀ i, 0 ≤ ((setCurs st o v).g_oft i).curs := by
  intro i
  simp only [setCurs]
  split
  · exact hv
  · exact hinv i

/-- The assignment `g_oft[ofte].curs = v` leaves the other entries as they are. -/
theorem setCurs_other (st : FS) (o v i : Int) (h : i ≠ o) :
    (setCurs st o v).g_oft i = st.g_oft i := by
  simp only [setCurs]
  rw [if_neg h]

/-- C11 (as amended): in a state whose cursors and file sizes are all `≥ 0`, a call of
`fsSeek`, `fsRead` or `fsWrite` that returns normally leaves every cursor `≥ 0`, provided
the position it moves the cursor to is an `i32`: `cursor + offset ≤ 2^31 - 1` for
`SEEK_CUR`, `size + offset ≤ 2^31 - 1` for `SEEK_END`, `cursor + n ≤ 2^31 - 1` for a read
that returns `n`, and `cursor + numb ≤ 2^31 - 1` for a write. -/
theorem cursors_stay_nonneg (E : Bfs) (st : FS) (fd : Int)
    (hinv : ∀ i, 0 ≤ (st.g_oft i).curs) (hsz : ∀ i, 0 ≤ st.size i) :
    (∀ offset whence, (fsSeek E st fd offset whence).val? = some 0 →
      (whence = SEEK_CUR → fsTell E st fd + offset ≤ I32_MAX) →
      (whence = SEEK_END → fsSize E st fd + offset ≤ I32_MAX) →
      ∀ i, 0 ≤ ((fsSeek E st fd offset whence).state.g_oft i).curs) ∧
    (∀ L buf n, (fsRead E st fd L buf).val?.map Prod.fst = some n →
      fsTell E st fd + n ≤ I32_MAX →
      ∀ i, 0 ≤ ((fsRead E st fd L buf).state.g_oft i).curs) ∧
    (∀ L buf, (fsWrite E st fd L buf).val? = some 0 →
      fsTell E st fd + L ≤ I32_MAX →
      ∀ i, 0 ≤ ((fsWrite E st fd L buf).state.g_oft i).curs) := by
  have hc : 0 ≤ fsTell E st fd := hinv _
  have hs : 0 ≤ fsSize E st fd := hsz _
  have hadd : ∀ a b : Int, 0 ≤ a → 0 ≤ b → a + b ≤ I32_MAX → 0 ≤ add32 a b := by
    intro a b ha hb hab
    unfold add32
    rw [wrap32_of_range (by unfold I32_MIN; omega) hab]
    omega
  refine ⟨?_, ?_, ?_⟩
  · intro offset whence hv h1 h2
    by_cases h0 : offset < 0
    · rw [fsSeek_neg E st fd offset whence h0] at hv
      simp [Result.val?] at hv
    · have h0' : 0 ≤ offset := by omega
      by_cases w1 : whence = SEEK_SET
      · rw [w1, fsSeek_set E st fd offset h0']
        exact setCurs_nonneg st _ _ hinv h0'
      · by_cases w2 : whence = SEEK_CUR
        · rw [w2, fsSeek_cur E st fd offset h0']
          exact setCurs_nonneg st _ _ hinv (hadd _ _ hc h0' (h1 w2))
        · by_cases w3 : whence = SEEK_END
          · rw [w3, fsSeek_end E st fd offset h0']
            exact setCurs_nonneg st _ _ hinv (hadd _ _ hs h0' (h2 w3))
          · have hw : fsSeek E st fd offset whence = Result.fatal Err.EBADWHENCE st := by
              unfold fsSeek
              rw [if_neg h0]
              simp only [if_neg w1, if_neg w2, if_neg w3]
            rw [hw] at hv
            simp [Result.val?] at hv
  · intro L buf n hv hcn
    obtain ⟨_, _, _, _, hg⟩ := fsRead_frame E st fd L buf
    rcases hg with ⟨hnone, _⟩ | ⟨m, hm, hm0, hg⟩
    · rw [hnone] at hv
      cases hv
    · rw [hm] at hv
      have hmn : m = n := Option.some.inj hv
      subst hmn
      rw [hg]
      exact setCurs_nonneg st _ _ hinv (hadd _ _ hc hm0 hcn)
  · intro L buf hv hcL
    rcases fsWrite_frame E st fd L buf with ⟨hnone, _⟩ | ⟨_, hL, hg⟩
    · rw [hnone] at hv
      cases hv
    · rw [hg]
      exact setCurs_nonneg st _ _ hinv (hadd _ _ hc hL hcL)

/-- Witness of `cursors_stay_nonneg`: a seek by 5 from cursor 3, a read of 20 bytes and
a write of 20 bytes at cursor 3 of a file of 10 bytes. -/
theorem cursors_stay_nonneg_witness :
    ((∀ i, 0 ≤ ((demoFS 3 10).g_oft i).curs) ∧ (∀ i, 0 ≤ (demoFS 3 10).size i)) ∧
    (∀ i, 0 ≤ ((fsSeek demoBfs (demoFS 3 10) 0 5 SEEK_CUR).state.g_oft i).curs) ∧
    (∀ i, 0 ≤ ((fsRead demoBfs (demoFS 3 10) 0 20 sevens).state.g_oft i).curs) ∧
    (∀ i, 0 ≤ ((fsWrite demoBfs (demoFS 3 10) 0 20 sevens).state.g_oft i).curs) := by
  have h := cursors_stay_nonneg demoBfs (demoFS 3 10) 0
    (fun _ => (by decide : (0 : Int) ≤ 3)) (fun _ => (by decide : (0 : Int) ≤ 10))
  exact ⟨⟨fun _ => (by decide : (0 : Int) ≤ 3), fun _ => (by decide : (0 : Int) ≤ 10)⟩,
    h.1 5 SEEK_CUR (by decide) (fun _ => by decide) (fun _ => by decide),
    h.2.1 20 sevens 7 (by decide) (by decide),
    h.2.2 20 sevens (by decide) (by decide)⟩

/-- C11 as stated fails: every cursor is `I32_MAX ≥ 0` and every size is `10 ≥ 0`;
`fsSeek(fd, 1, SEEK_CUR)` returns 0 and leaves the cursor of entry 0 at `I32_MIN`. -/
theorem cursors_stay_nonneg_counterexample :
    ((∀ i, 0 ≤ ((demoFS 2147483647 10).g_oft i).curs) ∧
      (∀ i, 0 ≤ (demoFS 2147483647 10).size i)) ∧
    (fsSeek demoBfs (demoFS 2147483647 10) 0 1 SEEK_CUR).val? = some 0 ∧
    ((fsSeek demoBfs (demoFS 2147483647 10) 0 1 SEEK_CUR).state.g_oft 0).curs < 0 :=
  ⟨⟨fun _ => (by decide : (0 : Int) ≤ 2147483647), fun _ => (by decide : (0 : Int) ≤ 10)⟩,
    by decide, by decide⟩

/-- C13: for an offset `≥ 0` and a valid `whence`, `fsSeek` returns 0 and changes
nothing but the field `curs` of the entry `g_oft[bfsFindOFTE(bfsFdToInum(fd))]`: the
inode number of that entry, every other entry, every file size, the FBN to DBN map and
every block are as before, and no collaborator that changes them is called. -/
theorem fsSeek_changes_one_cursor (E : Bfs) (st : FS) (fd offset whence : Int)
    (hoff : 0 ≤ offset)
    (hw : whence = SEEK_SET ∨ whence = SEEK_CUR ∨ whence = SEEK_END) :
    ∃ st1, fsSeek E st fd offset whence = Result.ok 0 st1 ∧
      (st1.g_oft (E.bfsFindOFTE (E.bfsFdToInum fd))).inum
        = (st.g_oft (E.bfsFindOFTE (E.bfsFdToInum fd))).inum ∧
      (∀ i, i ≠ E.bfsFindOFTE (E.bfsFdToInum fd) → st1.g_oft i = st.g_oft i) ∧
      st1.size = st.size ∧ st1.dbn = st.dbn ∧ st1.disk = st.disk ∧
      st1.log = st.log ∧ st1.iters = st.iters := by
  rcases hw with h | h | h
  · rw [h]
    exact ⟨_, fsSeek_set E st fd offset hoff, by simp [setCurs],
      fun i hi => setCurs_other st _ _ i hi, rfl, rfl, rfl, rfl, rfl⟩
  · rw [h]
    exact ⟨_, fsSeek_cur E st fd offset hoff, by simp [setCurs],
      fun i hi => setCurs_other st _ _ i hi, rfl, rfl, rfl, rfl, rfl⟩
  · rw [h]
    exact ⟨_, fsSeek_end E st fd offset hoff, by simp [setCurs],
      fun i hi => setCurs_other st _ _ i hi, rfl, rfl, rfl, rfl, rfl⟩

/-- Witness of `fsSeek_changes_one_cursor`: `fsSeek(fd, 700, SEEK_END)` on descriptor 0
at cursor 5 of a file of 10 bytes. -/
theorem fsSeek_changes_one_cursor_witness :
    ((0 : Int) ≤ 700 ∧
      (SEEK_END = SEEK_SET ∨ SEEK_END = SEEK_CUR ∨ SEEK_END = SEEK_END)) ∧
    ∃ st1, fsSeek demoBfs (demoFS 5 10) 0 700 SEEK_END = Result.ok 0 st1 ∧
      (st1.g_oft 0).inum = 0 ∧ (∀ i, i ≠ 0 → st1.g_oft i = (demoFS 5 10).g_oft i) ∧
      st1.size = (demoFS 5 10).size ∧ st1.disk = (demoFS 5 10).disk := by
  obtain ⟨st1, h1, h2, h3, h4, _, h6, _⟩ :=
    fsSeek_changes_one_cursor demoBfs (demoFS 5 10) 0 700 SEEK_END (by decide)
      (Or.inr (Or.inr rfl))
  exact ⟨⟨by decide, Or.inr (Or.inr rfl)⟩, st1, h1, h2, h3, h4, h6⟩

/-- C14, the code on every input and at the failing input: `fsSeek` never changes a file
size, whatever its arguments and its outcome; on a file of 10 bytes
`fsSeek(fd, 20, SEEK_SET)` returns 0 and `fsSize(fd)` is still 10, not 20. -/
theorem fsSeek_keeps_size :
    (∀ (E : Bfs) (st : FS) (fd offset whence : Int),
      (fsSeek E st fd offset whence).state.size = st.size ∧
      fsSize E (fsSeek E st fd offset whence).state fd = fsSize E st fd) ∧
    fsSize demoBfs (demoFS 5 10) 0 < 20 ∧
    (fsSeek demoBfs (demoFS 5 10) 0 20 SEEK_SET).val? = some 0 ∧
    fsSize demoBfs (fsSeek demoBfs (demoFS 5 10) 0 20 SEEK_SET).state 0 = 10 := by
  refine ⟨?_, by decide, by decide, by decide⟩
  intro E st fd offset whence
  have h : (fsSeek E st fd offset whence).state.size = st.size := by
    unfold fsSeek
    split
    · rfl
    · simp only []
      split
      · rfl
      · split
        · rfl
        · split <;> rfl
  exact ⟨h, by unfold fsSize bfsGetSize; rw [h]⟩

/-- C15 (as amended): a call of `fsSeek`, `fsRead` or `fsWrite` on `fd1`, whatever its
arguments and its outcome, leaves the cursor of every descriptor `fd2` whose
open-file-table entry `bfsFindOFTE(bfsFdToInum(fd2))` is not that of `fd1` unchanged.
Descriptors that resolve to the same inode use the same entry and share its cursor:
after `fsSeek(fd1, O, SEEK_SET)` with `O ≥ 0` the cursor of `fd2` is `O`. -/
theorem cursor_of_other_entry_kept (E : Bfs) (st : FS) (fd1 fd2 : Int)
    (hne : E.bfsFindOFTE (E.bfsFdToInum fd2) ≠ E.bfsFindOFTE (E.bfsFdToInum fd1)) :
    (∀ offset whence,
      (fsSeek E st fd1 offset whence).state.g_oft (E.bfsFindOFTE (E.bfsFdToInum fd2))
        = st.g_oft (E.bfsFindOFTE (E.bfsFdToInum fd2))) ∧
    (∀ L buf,
      (fsRead E st fd1 L buf).state.g_oft (E.bfsFindOFTE (E.bfsFdToInum fd2))
        = st.g_oft (E.bfsFindOFTE (E.bfsFdToInum fd2))) ∧
    (∀ L buf,
      (fsWrite E st fd1 L buf).state.g_oft (E.bfsFindOFTE (E.bfsFdToInum fd2))
        = st.g_oft (E.bfsFindOFTE (E.bfsFdToInum fd2))) ∧
    (∀ fd3 O, E.bfsFdToInum fd3 = E.bfsFdToInum fd1 → 0 ≤ O →
      ((fsSeek E st fd1 O SEEK_SET).state.g_oft
        (E.bfsFindOFTE (E.bfsFdToInum fd3))).curs = O) := by
  refine ⟨?_, ?_, ?_, ?_⟩
  · intro offset whence
    unfold fsSeek
    split
    · rfl
    · simp only []
      split
      · exact setCurs_other st _ _ _ hne
      · split
        · exact setCurs_other st _ _ _ hne
        · split
          · exact setCurs_other st _ _ _ hne
          · rfl
  · intro L buf
    obtain ⟨_, _, _, _, hg⟩ := fsRead_frame E st fd1 L buf
    rcases hg with ⟨_, hg⟩ | ⟨m, _, _, hg⟩
    · rw [hg]
    · rw [hg]
      exact setCurs_other st _ _ _ hne
  · intro L buf
    rcases fsWrite_frame E st fd1 L buf with ⟨_, hg⟩ | ⟨_, _, hg⟩
    · rw [hg]
    · rw [hg]
      exact setCurs_other st _ _ _ hne
  · intro fd3 O h3 hO
    rw [fsSeek_set E st fd1 O hO, h3]
    simp [Result.state, setCurs]

/-- Witness of `cursor_of_other_entry_kept`: descriptors 0 and 1, on the entries 0 and
1. -/
theorem cursor_of_other_entry_kept_witness :
    demoBfs.bfsFindOFTE (demoBfs.bfsFdToInum 1) ≠ demoBfs.bfsFindOFTE (demoBfs.bfsFdToInum 0) ∧
    ((fsSeek demoBfs (demoFS 3 10) 0 700 SEEK_SET).state.g_oft 1).curs = 3 ∧
    ((fsRead demoBfs (demoFS 3 10) 0 20 sevens).state.g_oft 1).curs = 3 ∧
    ((fsWrite demoBfs (demoFS 3 10) 0 20 sevens).state.g_oft 1).curs = 3 := by
  have h := cursor_of_other_entry_kept demoBfs (demoFS 3 10) 0 1 (by decide)
  exact ⟨by decide, congrArg OFTE.curs (h.1 700 SEEK_SET),
    congrArg OFTE.curs (h.2.1 20 sevens), congrArg OFTE.curs (h.2.2.1 20 sevens)⟩

/-- C15 as stated fails: descriptors 1 and 2 are distinct and resolve to the same inode
7; `fsSeek(1, 700, SEEK_SET)` returns 0 and the cursor
`g_oft[bfsFindOFTE(bfsFdToInum(2))].curs`, which was 3, is 700. -/
theorem cursor_of_other_entry_kept_counterexample :
    ((1 : Int) ≠ 2 ∧ sharedBfs.bfsFdToInum 1 = sharedBfs.bfsFdToInum 2) ∧
    (fsSeek sharedBfs (demoFS 3 10) 1 700 SEEK_SET).val? = some 0 ∧
    ((demoFS 3 10).g_oft (sharedBfs.bfsFindOFTE (sharedBfs.bfsFdToInum 2))).curs = 3 ∧
    ((fsSeek sharedBfs (demoFS 3 10) 1 700 SEEK_SET).state.g_oft
      (sharedBfs.bfsFindOFTE (sharedBfs.bfsFdToInum 2))).curs = 700 := by
  decide

/-! ## Claims on what `fsRead` and a zero-length call change -/

/-- C19: `fsRead`, for every input and whatever its outcome, calls none of `bfsExtend`,
`bfsSetSize`, `bioWrite` (the collaborator calls it makes are calls of `bfsRead`); the
file sizes, the FBN to DBN map and every block are the same after the call as before;
in the open-file table only the cursor of the descriptor's entry can change. -/
theorem fsRead_pure_copy (E : Bfs) (st : FS) (fd L : Int) (buf : Bytes) :
    (∃ evs, (fsRead E st fd L buf).state.log = st.log ++ evs ∧
      (∀ e, e ∈ evs → ∃ g, e = Event.bfsRead (E.bfsFdToInum fd) g) ∧
      (∀ i f, Event.bfsExtend i f ∉ evs) ∧ (∀ i s, Event.bfsSetSize i s ∉ evs) ∧
      (∀ d, Event.bioWrite d ∉ evs)) ∧
    (fsRead E st fd L buf).state.size = st.size ∧
    (fsRead E st fd L buf).state.dbn = st.dbn ∧
    (fsRead E st fd L buf).state.disk = st.disk ∧
    (∀ i, i ≠ E.bfsFindOFTE (E.bfsFdToInum fd) →
      (fsRead E st fd L buf).state.g_oft i = st.g_oft i) ∧
    ((fsRead E st fd L buf).state.g_oft (E.bfsFindOFTE (E.bfsFdToInum fd))).inum
      = (st.g_oft (E.bfsFindOFTE (E.bfsFdToInum fd))).inum := by
  obtain ⟨h1, h2, h3, ⟨evs, h4, h5⟩, hg⟩ := fsRead_frame E st fd L buf
  refine ⟨⟨evs, h4, h5, ?_, ?_, ?_⟩, h1, h2, h3, ?_, ?_⟩
  · intro i f hm
    obtain ⟨g, hg⟩ := h5 _ hm
    cases hg
  · intro i s hm
    obtain ⟨g, hg⟩ := h5 _ hm
    cases hg
  · intro d hm
    obtain ⟨g, hg⟩ := h5 _ hm
    cases hg
  · intro i hi
    rcases hg with ⟨_, hg⟩ | ⟨m, _, _, hg⟩
    · rw [hg]
    · rw [hg]
      exact setCurs_other st _ _ i hi
  · rcases hg with ⟨_, hg⟩ | ⟨m, _, _, hg⟩
    · rw [hg]
    · rw [hg]
      simp [setCurs]

/-- Assigning to a cursor the value it has changes nothing. -/
theorem setCurs_same (st : FS) (o : Int) :
    (setCurs st o (st.g_oft o).curs).g_oft = st.g_oft := by
  funext i
  simp only [setCurs]
  split
  · rename_i h
    rw [h]
  · rfl

/-- C12 (as amended): with `0 ≤ cursor ≤ size` and the end of the cursor's block within
`i32`, `fsRead(fd, 0, buf)` returns 0 and `fsWrite(fd, 0, buf)` returns 0, and each
leaves the open-file table (so every cursor), the file sizes, the caller's buffer, the
FBN to DBN map and every block as they are. With `cursor > size`, `fsWrite(fd, 0, buf)`
returns 0 with the cursors unchanged, but after `bfsExtend(inum, cursor / BYTESPERBLOCK)`
and `bfsSetSize(inum, cursor)`: the file size becomes `cursor`. -/
theorem zero_length_noop (E : Bfs) (st : FS) (fd : Int) (buf : Bytes)
    (hB : 2 ≤ E.BYTESPERBLOCK) (hc : 0 ≤ fsTell E st fd)
    (hex : fsTell E st fd / E.BYTESPERBLOCK * E.BYTESPERBLOCK + E.BYTESPERBLOCK ≤ I32_MAX) :
    (fsTell E st fd ≤ fsSize E st fd →
      (∃ st1, fsRead E st fd 0 buf = Result.ok (0, buf) st1 ∧
        st1.g_oft = st.g_oft ∧ st1.size = st.size ∧ st1.dbn = st.dbn ∧
        st1.disk = st.disk) ∧
      (∃ st1, fsWrite E st fd 0 buf = Result.ok 0 st1 ∧
        st1.g_oft = st.g_oft ∧ st1.size = st.size ∧ st1.dbn = st.dbn ∧
        st1.disk = st.disk)) ∧
    (fsSize E st fd < fsTell E st fd →
      ∃ st1 evs, fsWrite E st fd 0 buf = Result.ok 0 st1 ∧
        st1.g_oft = st.g_oft ∧ fsSize E st1 fd = fsTell E st fd ∧
        st1.log = st.log ++
          [Event.bfsExtend (E.bfsFdToInum fd) (fsTell E st fd / E.BYTESPERBLOCK),
           Event.bfsSetSize (E.bfsFdToInum fd) (fsTell E st fd)] ++ evs) := by
  have hB0 : 0 < E.BYTESPERBLOCK := by omega
  obtain ⟨x1, x2⟩ := block_bounds (fsTell E st fd) hB0
  have hf0 : 0 ≤ fsTell E st fd / E.BYTESPERBLOCK := Int.ediv_nonneg hc (le_of_lt hB0)
  have hfB : 0 ≤ fsTell E st fd / E.BYTESPERBLOCK * E.BYTESPERBLOCK :=
    Int.mul_nonneg hf0 (le_of_lt hB0)
  have hBM : E.BYTESPERBLOCK ≤ I32_MAX := by omega
  have hcL : fsTell E st fd + 0 ≤ I32_MAX := by omega
  have hex0 : (fsTell E st fd + 0) / E.BYTESPERBLOCK * E.BYTESPERBLOCK + E.BYTESPERBLOCK
      ≤ I32_MAX := by rw [add_zero]; exact hex
  have hgo : (setCurs st (E.bfsFindOFTE (E.bfsFdToInum fd)) (fsTell E st fd + 0)).g_oft
      = st.g_oft := by
    rw [add_zero]; exact setCurs_same st _
  -- the write loop of a zero-length request changes no byte
  have hwrite : ∃ (st1 : FS) (its : List Iter), fsWrite E st fd 0 buf = Result.ok 0 st1 ∧
      st1.g_oft = st.g_oft ∧ st1.size = (fsWriteStart E st fd 0).size ∧
      st1.dbn = (fsWriteStart E st fd 0).dbn ∧ st1.disk = (fsWriteStart E st fd 0).disk ∧
      st1.log = (fsWriteStart E st fd 0).log ++ its.flatMap (writeEvents (E.bfsFdToInum fd)) := by
    obtain ⟨st1, its, hrun, g1, g2, g3, g4, g5, g6, g7, g8, g9⟩ :=
      fsWrite_spec E st fd 0 buf hB hBM hc (le_refl _) hcL
    refine ⟨st1, its, hrun, by rw [g1, hgo], g2, g3, ?_, g5⟩
    funext d j
    apply g8 d j
    intro g hg1 hg2 _ hw
    obtain ⟨_, _, _, _, _, _, _, _, p9⟩ :=
      pass_facts hB hBM hc (le_refl 0) hcL hg1 hg2
    have h9 := p9 hex0
    unfold inWindow at hw
    rw [h9] at hw
    have hcc : fsTell E st fd ≤ max (fsTell E st fd) (g * E.BYTESPERBLOCK) := le_max_left _ _
    have hmn : min (fsTell E st fd + 0) (g * E.BYTESPERBLOCK + E.BYTESPERBLOCK)
        ≤ fsTell E st fd + 0 := min_le_left _ _
    omega
  constructor
  · intro hcs
    constructor
    · obtain ⟨buf1, st1, hrun, g1, g2, g3, g4, g5, g6, g7, g8, g9⟩ :=
        fsRead_spec E st fd 0 buf hB hBM hc hcs (le_refl _) hcL
      have hcl : clampedLength E st fd 0 = 0 := by
        unfold clampedLength; exact min_eq_left (by omega)
      rw [hcl] at hrun g1 g9
      have hb : buf1 = buf := by
        funext i
        rcases lt_or_le i 0 with h | h
        · exact g7 i h
        · exact g9 hex0 i h
      rw [hb] at hrun
      exact ⟨st1, hrun, by rw [g1, hgo], g2, g3, g4⟩
    · obtain ⟨st1, its, hrun, g1, g2, g3, g4, _⟩ := hwrite
      obtain ⟨_, l2⟩ := fsWriteStart_log E st fd 0 hB0 hc (le_refl _) hcL
      have hst := l2 (by omega)
      rw [hst] at g2 g3 g4
      exact ⟨st1, hrun, g1, g2, g3, g4⟩
  · intro hsc
    obtain ⟨st1, its, hrun, g1, g2, g3, g4, g5⟩ := hwrite
    obtain ⟨l1, _⟩ := fsWriteStart_log E st fd 0 hB0 hc (le_refl _) hcL
    refine ⟨st1, its.flatMap (writeEvents (E.bfsFdToInum fd)), hrun, g1, ?_, ?_⟩
    · show st1.size (E.bfsFdToInum fd) = _
      rw [g2, fsWriteStart_size E st fd 0 hc (le_refl _) hcL]
      simp only [add_zero, true_and]
      rw [if_pos (by omega)]
    · rw [g5, l1, add_zero, if_pos (by omega)]

/-- Witness of `zero_length_noop`: a cursor at 3 in a file of 10 bytes. -/
theorem zero_length_noop_witness :
    (2 ≤ demoBfs.BYTESPERBLOCK ∧ 0 ≤ fsTell demoBfs (demoFS 3 10) 0 ∧
      fsTell demoBfs (demoFS 3 10) 0 / demoBfs.BYTESPERBLOCK * demoBfs.BYTESPERBLOCK
        + demoBfs.BYTESPERBLOCK ≤ I32_MAX ∧
      fsTell demoBfs (demoFS 3 10) 0 ≤ fsSize demoBfs (demoFS 3 10) 0) ∧
    (∃ st1, fsRead demoBfs (demoFS 3 10) 0 0 sevens = Result.ok (0, sevens) st1 ∧
      st1.g_oft = (demoFS 3 10).g_oft ∧ st1.size = (demoFS 3 10).size ∧
      st1.dbn = (demoFS 3 10).dbn ∧ st1.disk = (demoFS 3 10).disk) ∧
    (∃ st1, fsWrite demoBfs (demoFS 3 10) 0 0 sevens = Result.ok 0 st1 ∧
      st1.g_oft = (demoFS 3 10).g_oft ∧ st1.size = (demoFS 3 10).size ∧
      st1.dbn = (demoFS 3 10).dbn ∧ st1.disk = (demoFS 3 10).disk) := by
  have h := (zero_length_noop demoBfs (demoFS 3 10) 0 sevens (by decide) (by decide)
    (by decide)).1 (by decide)
  exact ⟨by decide, h.1, h.2⟩

/-- C12 as stated fails: with the cursor at 20 beyond the 10 bytes of the file,
`fsWrite(fd, 0, buf)` returns 0 after `bfsExtend` and `bfsSetSize`, and the file size is
20; with the cursor at 600, `fsRead(fd, 0, buf)` does not return but aborts in `fsSeek`
with `EBADCURS`; and with the cursor at `2147483136`, the start of the last block within
`i32`, `fsRead(fd, 0, buf)` returns 0 after copying the whole block: byte 0 of the
buffer, which was 7, is 0. -/
theorem zero_length_noop_counterexample :
    (0 ≤ fsTell demoBfs (demoFS 20 10) 0 ∧ 0 ≤ fsTell demoBfs (demoFS 600 10) 0) ∧
    ((fsWrite demoBfs (demoFS 20 10) 0 0 sevens).val? = some 0 ∧
      fsSize demoBfs (demoFS 20 10) 0 = 10 ∧
      fsSize demoBfs (fsWrite demoBfs (demoFS 20 10) 0 0 sevens).state 0 = 20 ∧
      (fsWrite demoBfs (demoFS 20 10) 0 0 sevens).state.log
        = [Event.bfsExtend 0 0, Event.bfsSetSize 0 20, Event.bfsFbnToDbn 0 0,
           Event.bfsRead 0 0, Event.bioWrite 0]) ∧
    ((fsRead demoBfs (demoFS 600 10) 0 0 sevens).val?.map Prod.fst = none ∧
      (fsRead demoBfs (demoFS 600 10) 0 0 sevens).fatal? = some Err.EBADCURS) ∧
    (0 ≤ fsTell demoBfs (demoFS 2147483136 2147483647) 0 ∧
      (fsRead demoBfs (demoFS 2147483136 2147483647) 0 0 sevens).val?.map
          (fun p => (p.1, p.2 0)) = some (0, 0) ∧
      sevens 0 = 7) := by
  decide

/-! ## Claims on `fsOpen` and `fsCreate` -/

/-- C16: when `bfsInumToFd` never returns `EFNF`, `fsOpen(name)` returns `EFNF` exactly
when `bfsLookupFile(name)` does and `fsCreate(name)` returns `EFNF` exactly when
`bfsCreateFile(name)` does; in that case nothing else is called: the state is the one
the collaborator left, so no descriptor is bound; otherwise the result is exactly that of
`bfsInumToFd` on the inode number the collaborator returned. -/
theorem fsOpen_fsCreate_not_found (D : BfsDir) (st : FS) (fname : String)
    (hfd : ∀ s i, (D.bfsInumToFd s i).1 ≠ D.EFNF) :
    (((fsOpen D st fname).1 = D.EFNF ↔ (D.bfsLookupFile st fname).1 = D.EFNF) ∧
      ((D.bfsLookupFile st fname).1 = D.EFNF →
        fsOpen D st fname = (D.EFNF, (D.bfsLookupFile st fname).2)) ∧
      ((D.bfsLookupFile st fname).1 ≠ D.EFNF →
        fsOpen D st fname
          = D.bfsInumToFd (D.bfsLookupFile st fname).2 (D.bfsLookupFile st fname).1)) ∧
    (((fsCreate D st fname).1 = D.EFNF ↔ (D.bfsCreateFile st fname).1 = D.EFNF) ∧
      ((D.bfsCreateFile st fname).1 = D.EFNF →
        fsCreate D st fname = (D.EFNF, (D.bfsCreateFile st fname).2)) ∧
      ((D.bfsCreateFile st fname).1 ≠ D.EFNF →
        fsCreate D st fname
          = D.bfsInumToFd (D.bfsCreateFile st fname).2 (D.bfsCreateFile st fname).1)) := by
  constructor
  · unfold fsOpen
    by_cases h : (D.bfsLookupFile st fname).1 = D.EFNF
    · simp [h]
    · simp [h, hfd]
  · unfold fsCreate
    by_cases h : (D.bfsCreateFile st fname).1 = D.EFNF
    · simp [h]
    · simp [h, hfd]

/-- Witness of `fsOpen_fsCreate_not_found`: opening the missing file `b`, opening the
file `a` and creating `c` in `demoDir`. -/
theorem fsOpen_fsCreate_not_found_witness :
    (∀ s i, (demoDir.bfsInumToFd s i).1 ≠ demoDir.EFNF) ∧
    (fsOpen demoDir (demoFS 0 0) "b").1 = demoDir.EFNF ∧
    (fsOpen demoDir (demoFS 0 0) "a").1 = 8 ∧
    (fsCreate demoDir (demoFS 0 0) "c").1 = 9 := by
  have hfd : ∀ (s : FS) (i : Int), (demoDir.bfsInumToFd s i).1 ≠ demoDir.EFNF := by
    intro s i
    simp only [demoDir]
    split <;> omega
  have hb := (fsOpen_fsCreate_not_found demoDir (demoFS 0 0) "b" hfd).1.1.mpr (by decide)
  have ha := (fsOpen_fsCreate_not_found demoDir (demoFS 0 0) "a" hfd).1.2.2 (by decide)
  have hc := (fsOpen_fsCreate_not_found demoDir (demoFS 0 0) "c" hfd).2.2.2 (by decide)
  exact ⟨hfd, hb, by rw [ha]; decide, by rw [hc]; decide⟩

/-! ## Claims on the passes of the block loops -/

/-- The code's `endBuff` of a pass is the one of the specification when the end of the
last block touched lies within `i32`. -/
theorem window_exact {B c n g : Int} (hB : 2 ≤ B) (hBM : B ≤ I32_MAX) (hc : 0 ≤ c)
    (hn : 0 ≤ n) (hcn : c + n ≤ I32_MAX) (hex : (c + n) / B * B + B ≤ I32_MAX)
    (hg1 : c / B ≤ g) (hg2 : g ≤ (c + n) / B) :
    ({ fbn := g, startBuff := max c (g * B) - g * B,
       endBuff := endBuffOf B c n g (max c (g * B)) (max c (g * B) - g * B),
       off := max c (g * B) - c } : Window) = specWindow B c n g := by
  obtain ⟨_, _, _, _, _, _, _, _, p9⟩ := pass_facts hB hBM hc hn hcn hg1 hg2
  have e : (g + 1) * B = g * B + B := by ring
  unfold specWindow
  rw [p9 hex, e]

/-- The windows of the specification lie in the block and in the first `n` bytes of the
caller's buffer. -/
theorem specWindow_bounds {B c n g : Int} (hB : 2 ≤ B) (hc : 0 ≤ c) (hn : 0 ≤ n)
    (hg1 : c / B ≤ g) (hg2 : g ≤ (c + n) / B) :
    0 ≤ (specWindow B c n g).startBuff ∧
    (specWindow B c n g).startBuff ≤ (specWindow B c n g).endBuff ∧
    (specWindow B c n g).endBuff ≤ B ∧
    0 ≤ (specWindow B c n g).off ∧
    (specWindow B c n g).off + ((specWindow B c n g).endBuff - (specWindow B c n g).startBuff)
      ≤ n := by
  obtain ⟨hf0, a1, a2, b1, b2, m1, m2, m3, m4, m5⟩ := block_facts hB hc hg1 hg2
  simp only [specWindow]
  rw [m5]
  have h1 : g * B ≤ max c (g * B) := le_max_right _ _
  have h2 : c ≤ max c (g * B) := le_max_left _ _
  have h3 : max c (g * B) ≤ c + n := max_le (by omega) (by omega)
  have h4 : max c (g * B) ≤ g * B + B := max_le (by omega) (by omega)
  have h5 : min (c + n) (g * B + B) ≤ c + n := min_le_left _ _
  have h6 : min (c + n) (g * B + B) ≤ g * B + B := min_le_right _ _
  have h7 : max c (g * B) ≤ min (c + n) (g * B + B) := le_min h3 h4
  omega

/-- The lengths of the windows of the specification from block `f` on add up to the
bytes from `max c (f * B)` to `c + n`. -/
theorem specWindow_sum {B c n : Int} (hB : 2 ≤ B) (hc : 0 ≤ c) :
    ∀ (k : Nat) (f : Int), (k : Int) = (c + n) / B - f + 1 → c / B ≤ f → f ≤ (c + n) / B →
      ((List.range k).map (fun (j : Nat) =>
          (specWindow B c n (f + (j : Int))).endBuff
            - (specWindow B c n (f + (j : Int))).startBuff)).sum
        = c + n - max c (f * B) := by
  intro k
  induction k with
  | zero => intro f hk hf hl; simp at hk; omega
  | succ k ih =>
    intro f hk hf hl
    obtain ⟨hf0, a1, a2, b1, b2, m1, m2, m3, m4, m5⟩ := block_facts hB hc hf hl
    rw [map_range_succ (fun x => (specWindow B c n x).endBuff - (specWindow B c n x).startBuff),
      List.sum_cons]
    have h1 : f * B ≤ max c (f * B) := le_max_right _ _
    have h2 : c ≤ max c (f * B) := le_max_left _ _
    rcases lt_or_eq_of_le hl with hlt | heq
    · have h3 := m3 hlt
      rw [ih (f + 1) (by push_cast at hk; omega) (by omega) (by omega)]
      simp only [specWindow]
      rw [m5, min_eq_right (by omega), max_eq_right (by omega : c ≤ f * B + B)]
      omega
    · have hk0 : k = 0 := by push_cast at hk; omega
      subst hk0
      have hq : f * B = (c + n) / B * B := by rw [heq]
      simp only [List.range_zero, List.map_nil, List.sum_nil, specWindow]
      rw [m5, min_eq_left (by omega)]
      omega

/-- The lengths of the passes of the specification add up to `n`. -/
theorem specPasses_sum {B c n : Int} (hB : 2 ≤ B) (hc : 0 ≤ c) (hn : 0 ≤ n) :
    ((specPasses B c n).map (fun w => w.endBuff - w.startBuff)).sum = n := by
  have hB0 : 0 < B := by omega
  have hfl : c / B ≤ (c + n) / B := Int.ediv_le_ediv hB0 (by omega)
  obtain ⟨a1, _⟩ := block_bounds c hB0
  unfold specPasses
  rw [List.map_map]
  have h := specWindow_sum (n := n) hB hc ((c + n) / B - c / B + 1).toNat (c / B)
    (by rw [Int.toNat_of_nonneg (by omega)]) (le_refl _) hfl
  rw [max_eq_left a1] at h
  have e : ((fun w : Window => w.endBuff - w.startBuff) ∘
      fun (j : Nat) => specWindow B c n (c / B + (j : Int)))
      = fun (j : Nat) => (specWindow B c n (c / B + (j : Int))).endBuff
          - (specWindow B c n (c / B + (j : Int))).startBuff := rfl
  rw [e, h]
  omega

/-- A pass of the specification is on an FBN from `c / B` to `(c + n) / B`. -/
theorem specPasses_mem {B c n : Int} (hB : 2 ≤ B) (hn : 0 ≤ n) (w : Window)
    (hw : w ∈ specPasses B c n) :
    ∃ g, c / B ≤ g ∧ g ≤ (c + n) / B ∧ w = specWindow B c n g := by
  have hB0 : 0 < B := by omega
  have hfl : c / B ≤ (c + n) / B := Int.ediv_le_ediv hB0 (by omega)
  unfold specPasses at hw
  obtain ⟨j, hj, hje⟩ := List.mem_map.mp hw
  have hjk := List.mem_range.mp hj
  have := Int.toNat_of_nonneg (a := (c + n) / B - c / B + 1) (by omega)
  exact ⟨c / B + (j : Int), by omega, by omega, hje.symm⟩

/-- The windows of every pass lie in the scratch block, whether or not the last block
touched ends within `i32`. -/
theorem window_in_block {B c n g : Int} (hB : 2 ≤ B) (hBM : B ≤ I32_MAX) (hc : 0 ≤ c)
    (hn : 0 ≤ n) (hcn : c + n ≤ I32_MAX) (hg1 : c / B ≤ g) (hg2 : g ≤ (c + n) / B) :
    0 ≤ max c (g * B) - g * B ∧
    max c (g * B) - g * B ≤ endBuffOf B c n g (max c (g * B)) (max c (g * B) - g * B) ∧
    endBuffOf B c n g (max c (g * B)) (max c (g * B) - g * B) ≤ B := by
  obtain ⟨_, _, _, _, p5, p6, _, _, _⟩ := pass_facts hB hBM hc hn hcn hg1 hg2
  obtain ⟨q1, _⟩ := pass_next hB hBM hc hn hcn hg1 hg2
  exact ⟨q1, p5, p6⟩

/-- The passes `fsRead` makes: their windows lie in the scratch block, and they are the
windows of the specification when the end of the last block touched lies within `i32`. -/
theorem fsRead_windows (E : Bfs) (st : FS) (fd L : Int) (buf : Bytes)
    (hB : 2 ≤ E.BYTESPERBLOCK) (hBM : E.BYTESPERBLOCK ≤ I32_MAX)
    (hc : 0 ≤ fsTell E st fd) (hcs : fsTell E st fd ≤ fsSize E st fd) (hL : 0 ≤ L)
    (hcL : fsTell E st fd + L ≤ I32_MAX) :
    ∃ buf1 st1 its,
      fsRead E st fd L buf
        = Result.ok (min L (fsSize E st fd - fsTell E st fd), buf1) st1 ∧
      st1.iters = st.iters ++ its ∧
      (∀ it, it ∈ its → 0 ≤ it.startBuff ∧ it.startBuff ≤ it.endBuff ∧
        it.endBuff ≤ E.BYTESPERBLOCK) ∧
      ((fsTell E st fd + min L (fsSize E st fd - fsTell E st fd)) / E.BYTESPERBLOCK
          * E.BYTESPERBLOCK + E.BYTESPERBLOCK ≤ I32_MAX →
        its.map Iter.window
          = specPasses E.BYTESPERBLOCK (fsTell E st fd)
              (min L (fsSize E st fd - fsTell E st fd))) := by
  obtain ⟨buf1, st1, hrun, g1, g2, g3, g4, g5, g6, g7, g8, g9⟩ :=
    fsRead_spec E st fd L buf hB hBM hc hcs hL hcL
  have hB0 : 0 < E.BYTESPERBLOCK := by omega
  have hcl : clampedLength E st fd L = min L (fsSize E st fd - fsTell E st fd) := rfl
  rw [hcl] at hrun g6
  have hn0 : 0 ≤ min L (fsSize E st fd - fsTell E st fd) := le_min hL (by omega)
  have hnL : min L (fsSize E st fd - fsTell E st fd) ≤ L := min_le_left _ _
  have hfl : fsTell E st fd / E.BYTESPERBLOCK
      ≤ (fsTell E st fd + min L (fsSize E st fd - fsTell E st fd)) / E.BYTESPERBLOCK :=
    Int.ediv_le_ediv hB0 (by omega)
  have hnat := Int.toNat_of_nonneg (a := (fsTell E st fd
    + min L (fsSize E st fd - fsTell E st fd)) / E.BYTESPERBLOCK
    - fsTell E st fd / E.BYTESPERBLOCK + 1) (by omega)
  refine ⟨buf1, st1, _, hrun, g6, ?_, ?_⟩
  · intro it hit
    obtain ⟨j, hj, rfl⟩ := List.mem_map.mp hit
    have hjk := List.mem_range.mp hj
    exact window_in_block (g := fsTell E st fd / E.BYTESPERBLOCK + (j : Int)) hB hBM hc hn0
      (by omega) (by omega) (by omega)
  · intro hex
    unfold specPasses
    rw [List.map_map]
    apply List.map_congr_left
    intro j hj
    have hjk := List.mem_range.mp hj
    exact window_exact (g := fsTell E st fd / E.BYTESPERBLOCK + (j : Int)) hB hBM hc hn0
      (by omega) hex (by omega) (by omega)

/-- The passes `fsWrite` makes: their windows lie in the scratch block, and they are the
windows of the specification when the end of the last block touched lies within `i32`. -/
theorem fsWrite_windows (E : Bfs) (st : FS) (fd L : Int) (buf : Bytes)
    (hB : 2 ≤ E.BYTESPERBLOCK) (hBM : E.BYTESPERBLOCK ≤ I32_MAX)
    (hc : 0 ≤ fsTell E st fd) (hL : 0 ≤ L) (hcL : fsTell E st fd + L ≤ I32_MAX) :
    ∃ st1 its,
      fsWrite E st fd L buf = Result.ok 0 st1 ∧
      st1.iters = st.iters ++ its ∧
      (∀ it, it ∈ its → 0 ≤ it.startBuff ∧ it.startBuff ≤ it.endBuff ∧
        it.endBuff ≤ E.BYTESPERBLOCK) ∧
      ((fsTell E st fd + L) / E.BYTESPERBLOCK * E.BYTESPERBLOCK + E.BYTESPERBLOCK
          ≤ I32_MAX →
        its.map Iter.window = specPasses E.BYTESPERBLOCK (fsTell E st fd) L) := by
  have hB0 : 0 < E.BYTESPERBLOCK := by omega
  obtain ⟨st1, its, hrun, g1, g2, g3, g4, g5, g6, g7, g8, g9⟩ :=
    fsWrite_spec E st fd L buf hB hBM hc hL hcL
  have hfl : fsTell E st fd / E.BYTESPERBLOCK ≤ (fsTell E st fd + L) / E.BYTESPERBLOCK :=
    Int.ediv_le_ediv hB0 (by omega)
  have hnat := Int.toNat_of_nonneg (a := (fsTell E st fd + L) / E.BYTESPERBLOCK
    - fsTell E st fd / E.BYTESPERBLOCK + 1) (by omega)
  have hrange : ∀ it, it ∈ its → fsTell E st fd / E.BYTESPERBLOCK ≤ it.fbn ∧
      it.fbn ≤ (fsTell E st fd + L) / E.BYTESPERBLOCK := by
    intro it hit
    have hm : it.fbn ∈ its.map (fun it => it.fbn) := List.mem_map.mpr ⟨it, hit, rfl⟩
    rw [g6] at hm
    obtain ⟨j, hj, hje⟩ := List.mem_map.mp hm
    have hjk := List.mem_range.mp hj
    constructor <;> omega
  refine ⟨st1, its, hrun, g4, ?_, ?_⟩
  · intro it hit
    obtain ⟨r1, r2⟩ := hrange it hit
    obtain ⟨w1, w2, w3, w4, w5⟩ := g7 it hit
    rw [w2, w3]
    exact window_in_block hB hBM hc hL hcL r1 r2
  · intro hex
    have hw : its.map Iter.window
        = its.map (fun it => specWindow E.BYTESPERBLOCK (fsTell E st fd) L it.fbn) := by
      apply List.map_congr_left
      intro it hit
      obtain ⟨r1, r2⟩ := hrange it hit
      obtain ⟨w1, w2, w3, w4, w5⟩ := g7 it hit
      rw [← window_exact hB hBM hc hL hcL hex r1 r2]
      simp only [Iter.window, w2, w3, w4]
    rw [hw]
    have hc2 : its.map (fun it => specWindow E.BYTESPERBLOCK (fsTell E st fd) L it.fbn)
        = (its.map (fun it => it.fbn)).map
            (specWindow E.BYTESPERBLOCK (fsTell E st fd) L) := by
      rw [List.map_map]; rfl
    rw [hc2, g6, List.map_map]
    rfl

/-- C17 (as amended): with `0 ≤ cursor`, `0 ≤ L` and `cursor + L` within `i32`, the
collaborator calls of `fsWrite` are, in this order: when `cursor + L > size`,
`bfsExtend(inum, (cursor + L) / BYTESPERBLOCK)` and then `bfsSetSize(inum, cursor + L)`,
and none of the two when `cursor + L ≤ size`; then the calls of the loop, which are
`bfsFbnToDbn`, `bfsRead` and `bioWrite` on FBNs `f` with
`cursor / BYTESPERBLOCK ≤ f ≤ (cursor + L) / BYTESPERBLOCK` only, so never above the
target of the extension. -/
theorem fsWrite_extends_first (E : Bfs) (st : FS) (fd L : Int) (buf : Bytes)
    (hB : 2 ≤ E.BYTESPERBLOCK) (hBM : E.BYTESPERBLOCK ≤ I32_MAX)
    (hc : 0 ≤ fsTell E st fd) (hL : 0 ≤ L) (hcL : fsTell E st fd + L ≤ I32_MAX) :
    ∃ st1 loopEvs, fsWrite E st fd L buf = Result.ok 0 st1 ∧
      st1.log = st.log ++
        (if fsTell E st fd + L > fsSize E st fd then
          [Event.bfsExtend (E.bfsFdToInum fd) ((fsTell E st fd + L) / E.BYTESPERBLOCK),
           Event.bfsSetSize (E.bfsFdToInum fd) (fsTell E st fd + L)]
         else []) ++ loopEvs ∧
      (∀ e, e ∈ loopEvs → ∃ f, fsTell E st fd / E.BYTESPERBLOCK ≤ f ∧
        f ≤ (fsTell E st fd + L) / E.BYTESPERBLOCK ∧
        (e = Event.bfsFbnToDbn (E.bfsFdToInum fd) f ∨ e = Event.bfsRead (E.bfsFdToInum fd) f ∨
          e = Event.bioWrite ((fsWriteStart E st fd L).dbn (E.bfsFdToInum fd) f))) ∧
      (∀ i f, Event.bfsExtend i f ∉ loopEvs) ∧
      (fsTell E st fd + L ≤ fsSize E st fd →
        st1.log = st.log ++ loopEvs ∧ st1.dbn = st.dbn) := by
  have hB0 : 0 < E.BYTESPERBLOCK := by omega
  obtain ⟨st1, its, hrun, g1, g2, g3, g4, g5, g6, g7, g8, g9⟩ :=
    fsWrite_spec E st fd L buf hB hBM hc hL hcL
  obtain ⟨l1, l2⟩ := fsWriteStart_log E st fd L hB0 hc hL hcL
  have hfl : fsTell E st fd / E.BYTESPERBLOCK ≤ (fsTell E st fd + L) / E.BYTESPERBLOCK :=
    Int.ediv_le_ediv hB0 (by omega)
  have hnat := Int.toNat_of_nonneg (a := (fsTell E st fd + L) / E.BYTESPERBLOCK
    - fsTell E st fd / E.BYTESPERBLOCK + 1) (by omega)
  have hev : ∀ e, e ∈ its.flatMap (writeEvents (E.bfsFdToInum fd)) →
      ∃ f, fsTell E st fd / E.BYTESPERBLOCK ≤ f ∧
        f ≤ (fsTell E st fd + L) / E.BYTESPERBLOCK ∧
        (e = Event.bfsFbnToDbn (E.bfsFdToInum fd) f ∨ e = Event.bfsRead (E.bfsFdToInum fd) f ∨
          e = Event.bioWrite ((fsWriteStart E st fd L).dbn (E.bfsFdToInum fd) f)) := by
    intro e he
    obtain ⟨it, hit, hev⟩ := List.mem_flatMap.mp he
    have hm : it.fbn ∈ its.map (fun it => it.fbn) := List.mem_map.mpr ⟨it, hit, rfl⟩
    rw [g6] at hm
    obtain ⟨j, hj, hje⟩ := List.mem_map.mp hm
    have hjk := List.mem_range.mp hj
    obtain ⟨w1, _⟩ := g7 it hit
    simp only [writeEvents, List.mem_cons, List.mem_singleton, List.not_mem_nil,
      or_false] at hev
    refine ⟨it.fbn, by omega, by omega, ?_⟩
    rw [← w1]
    exact hev
  refine ⟨st1, its.flatMap (writeEvents (E.bfsFdToInum fd)), hrun, ?_, hev, ?_, ?_⟩
  · rw [g5, l1]
  · intro i f hm
    obtain ⟨g, _, _, h | h | h⟩ := hev _ hm <;> cases h
  · intro h
    have hst := l2 h
    rw [hst] at g5 g3
    exact ⟨g5, g3⟩

/-- Witness of `fsWrite_extends_first`: 600 bytes written at cursor 500 of a file of 10
bytes. -/
theorem fsWrite_extends_first_witness :
    (2 ≤ demoBfs.BYTESPERBLOCK ∧ demoBfs.BYTESPERBLOCK ≤ I32_MAX ∧
      0 ≤ fsTell demoBfs (demoFS 500 10) 0 ∧ (0 : Int) ≤ 600 ∧
      fsTell demoBfs (demoFS 500 10) 0 + 600 ≤ I32_MAX) ∧
    ∃ st1 loopEvs, fsWrite demoBfs (demoFS 500 10) 0 600 sevens = Result.ok 0 st1 ∧
      st1.log = [Event.bfsExtend 0 2, Event.bfsSetSize 0 1100] ++ loopEvs ∧
      ∀ i f, Event.bfsExtend i f ∉ loopEvs := by
  obtain ⟨st1, evs, hrun, hlog, _, hno, _⟩ :=
    fsWrite_extends_first demoBfs (demoFS 500 10) 0 600 sevens (by decide) (by decide)
      (by decide) (by decide) (by decide)
  exact ⟨by decide, st1, evs, hrun, hlog, hno⟩

/-- C17 as stated fails: at cursor 1 of a file of 10 bytes a write of `I32_MAX` bytes has
`cursor + L > size`, but the `i32` sum wraps: `fsWrite` returns 0 without any
collaborator call, `bfsExtend` included. -/
theorem fsWrite_extends_first_counterexample :
    (0 ≤ fsTell demoBfs (demoFS 1 10) 0 ∧ (0 : Int) ≤ 2147483647 ∧
      fsTell demoBfs (demoFS 1 10) 0 + 2147483647 > fsSize demoBfs (demoFS 1 10) 0) ∧
    (fsWrite demoBfs (demoFS 1 10) 0 2147483647 sevens).val? = some 0 ∧
    (fsWrite demoBfs (demoFS 1 10) 0 2147483647 sevens).state.log = [] := by
  decide

/-- C18 (as amended): with `0 ≤ cursor`, `0 ≤ L`, `cursor + L` within `i32` and the end
of the last block touched within `i32`, the loop of `fsRead` (effective length
`n = min L (size - cursor)`, for `cursor ≤ size`) and the loop of `fsWrite` (effective
length `n = L`) make exactly one pass for each FBN `f` from `cursor / BYTESPERBLOCK` to
`(cursor + n) / BYTESPERBLOCK` in this order, a single one when the range lies in one
block, and in the pass for `f` the code's `startBuff`, `endBuff` and caller-buffer
offset are `max(c, f·B) − f·B`, `min(c + n, (f + 1)·B) − f·B` and `max(c, f·B) − c`. -/
theorem loop_windows_closed_form (E : Bfs) (st : FS) (fd L : Int) (buf : Bytes)
    (hB : 2 ≤ E.BYTESPERBLOCK) (hBM : E.BYTESPERBLOCK ≤ I32_MAX)
    (hc : 0 ≤ fsTell E st fd) (hL : 0 ≤ L) (hcL : fsTell E st fd + L ≤ I32_MAX) :
    (fsTell E st fd ≤ fsSize E st fd →
      (fsTell E st fd + min L (fsSize E st fd - fsTell E st fd)) / E.BYTESPERBLOCK
        * E.BYTESPERBLOCK + E.BYTESPERBLOCK ≤ I32_MAX →
      ∃ buf1 st1 its,
        fsRead E st fd L buf
          = Result.ok (min L (fsSize E st fd - fsTell E st fd), buf1) st1 ∧
        st1.iters = st.iters ++ its ∧
        its.map Iter.window
          = specPasses E.BYTESPERBLOCK (fsTell E st fd)
              (min L (fsSize E st fd - fsTell E st fd))) ∧
    ((fsTell E st fd + L) / E.BYTESPERBLOCK * E.BYTESPERBLOCK + E.BYTESPERBLOCK ≤ I32_MAX →
      ∃ st1 its,
        fsWrite E st fd L buf = Result.ok 0 st1 ∧
        st1.iters = st.iters ++ its ∧
        its.map Iter.window = specPasses E.BYTESPERBLOCK (fsTell E st fd) L) ∧
    (∀ n, (specPasses E.BYTESPERBLOCK (fsTell E st fd) n).map (fun w => w.fbn)
      = (List.range ((fsTell E st fd + n) / E.BYTESPERBLOCK
            - fsTell E st fd / E.BYTESPERBLOCK + 1).toNat).map
          (fun (j : Nat) => fsTell E st fd / E.BYTESPERBLOCK + (j : Int))) := by
  refine ⟨?_, ?_, ?_⟩
  · intro hcs hex
    obtain ⟨buf1, st1, its, hrun, hit, _, hw⟩ :=
      fsRead_windows E st fd L buf hB hBM hc hcs hL hcL
    exact ⟨buf1, st1, its, hrun, hit, hw hex⟩
  · intro hex
    obtain ⟨st1, its, hrun, hit, _, hw⟩ := fsWrite_windows E st fd L buf hB hBM hc hL hcL
    exact ⟨st1, its, hrun, hit, hw hex⟩
  · intro n
    unfold specPasses
    rw [List.map_map]
    rfl

/-- Witness of `loop_windows_closed_form`: 600 bytes at cursor 500, read from a file of
2000 bytes or written: three passes, on the blocks 0, 1 and 2. -/
theorem loop_windows_closed_form_witness :
    (2 ≤ demoBfs.BYTESPERBLOCK ∧ demoBfs.BYTESPERBLOCK ≤ I32_MAX ∧
      0 ≤ fsTell demoBfs (demoFS 500 2000) 0 ∧ (0 : Int) ≤ 600 ∧
      fsTell demoBfs (demoFS 500 2000) 0 + 600 ≤ I32_MAX) ∧
    (∃ buf1 st1 its, fsRead demoBfs (demoFS 500 2000) 0 600 sevens = Result.ok (600, buf1) st1 ∧
      st1.iters = its ∧
      its.map Iter.window
        = [{ fbn := 0, startBuff := 500, endBuff := 512, off := 0 },
           { fbn := 1, startBuff := 0, endBuff := 512, off := 12 },
           { fbn := 2, startBuff := 0, endBuff := 76, off := 524 }]) ∧
    (∃ st1 its, fsWrite demoBfs (demoFS 500 2000) 0 600 sevens = Result.ok 0 st1 ∧
      st1.iters = its ∧
      its.map Iter.window
        = [{ fbn := 0, startBuff := 500, endBuff := 512, off := 0 },
           { fbn := 1, startBuff := 0, endBuff := 512, off := 12 },
           { fbn := 2, startBuff := 0, endBuff := 76, off := 524 }]) := by
  have h := loop_windows_closed_form demoBfs (demoFS 500 2000) 0 600 sevens (by decide)
    (by decide) (by decide) (by decide) (by decide)
  obtain ⟨b1, s1, i1, r1, r2, r3⟩ := h.1 (by decide) (by decide)
  obtain ⟨s2, i2, w1, w2, w3⟩ := h.2.1 (by decide)
  have hp : specPasses 512 500 600
      = [{ fbn := 0, startBuff := 500, endBuff := 512, off := 0 },
         { fbn := 1, startBuff := 0, endBuff := 512, off := 12 },
         { fbn := 2, startBuff := 0, endBuff := 76, off := 524 }] := by decide
  exact ⟨by decide, ⟨b1, s1, i1, r1, r2, r3.trans hp⟩, ⟨s2, i2, w1, w2, w3.trans hp⟩⟩

/-- C18 as stated fails: with the cursor at `2147483136`, the start of the last block
within `i32`, and `n = 10`, the single pass of `fsWrite` has `endBuff = 512` because
`(currFBN + 1) * BYTESPERBLOCK` wraps, while `min(c + n, (f + 1)·B) − f·B = 10`. -/
theorem loop_windows_closed_form_counterexample :
    (0 ≤ fsTell demoBfs (demoFS 2147483136 2147483647) 0 ∧ (0 : Int) ≤ 10) ∧
    (fsWrite demoBfs (demoFS 2147483136 2147483647) 0 10 sevens).val? = some 0 ∧
    (fsWrite demoBfs (demoFS 2147483136 2147483647) 0 10 sevens).state.iters.map Iter.window
      = [{ fbn := 4194303, startBuff := 0, endBuff := 512, off := 0 }] ∧
    specPasses 512 2147483136 10
      = [{ fbn := 4194303, startBuff := 0, endBuff := 10, off := 0 }] := by
  decide

/-- What the windows of the specification give for a list of passes that uses them: every
copy stays in the first `n` bytes of the caller's buffer and the lengths add up to
`n`. -/
theorem passes_in_buffer {B c n : Int} (its : List Iter) (hB : 2 ≤ B) (hc : 0 ≤ c)
    (hn : 0 ≤ n) (hw : its.map Iter.window = specPasses B c n) :
    (∀ it, it ∈ its → 0 ≤ it.off ∧ it.off + (it.endBuff - it.startBuff) ≤ n) ∧
    (its.map (fun it => it.endBuff - it.startBuff)).sum = n := by
  constructor
  · intro it hit
    have hm : it.window ∈ specPasses B c n := by
      rw [← hw]; exact List.mem_map.mpr ⟨it, hit, rfl⟩
    obtain ⟨g, hg1, hg2, hge⟩ := specPasses_mem hB hn _ hm
    obtain ⟨_, _, _, b4, b5⟩ := specWindow_bounds hB hc hn hg1 hg2
    rw [← hge] at b4 b5
    exact ⟨b4, b5⟩
  · have e : its.map (fun it => it.endBuff - it.startBuff)
        = (its.map Iter.window).map (fun w => w.endBuff - w.startBuff) := by
      rw [List.map_map]; rfl
    rw [e, hw]
    exact specPasses_sum hB hc hn

/-- C20 (as amended): with `0 ≤ cursor`, `0 ≤ L` and `cursor + L` within `i32` (and
`cursor ≤ size` for `fsRead`), in every pass of the loops of `fsRead` and `fsWrite`
`0 ≤ startBuff ≤ endBuff ≤ BYTESPERBLOCK`: the length of the `memcpy` is not negative
and the copy stays in the scratch block. When moreover the end of the last block touched
lies within `i32`, `(currCursor - cursor) + (endBuff - startBuff)` is at most the
effective length `n` in every pass, so the copy stays in the first `n` bytes of the
caller's buffer, and the lengths copied add up to exactly `n`. -/
theorem copy_windows_in_bounds (E : Bfs) (st : FS) (fd L : Int) (buf : Bytes)
    (hB : 2 ≤ E.BYTESPERBLOCK) (hBM : E.BYTESPERBLOCK ≤ I32_MAX)
    (hc : 0 ≤ fsTell E st fd) (hL : 0 ≤ L) (hcL : fsTell E st fd + L ≤ I32_MAX) :
    (fsTell E st fd ≤ fsSize E st fd →
      ∃ buf1 st1 its,
        fsRead E st fd L buf
          = Result.ok (min L (fsSize E st fd - fsTell E st fd), buf1) st1 ∧
        st1.iters = st.iters ++ its ∧
        (∀ it, it ∈ its → 0 ≤ it.startBuff ∧ it.startBuff ≤ it.endBuff ∧
          it.endBuff ≤ E.BYTESPERBLOCK) ∧
        ((fsTell E st fd + min L (fsSize E st fd - fsTell E st fd)) / E.BYTESPERBLOCK
            * E.BYTESPERBLOCK + E.BYTESPERBLOCK ≤ I32_MAX →
          (∀ it, it ∈ its → 0 ≤ it.off ∧
            it.off + (it.endBuff - it.startBuff)
              ≤ min L (fsSize E st fd - fsTell E st fd)) ∧
          (its.map (fun it => it.endBuff - it.startBuff)).sum
            = min L (fsSize E st fd - fsTell E st fd))) ∧
    (∃ st1 its,
      fsWrite E st fd L buf = Result.ok 0 st1 ∧
      st1.iters = st.iters ++ its ∧
      (∀ it, it ∈ its → 0 ≤ it.startBuff ∧ it.startBuff ≤ it.endBuff ∧
        it.endBuff ≤ E.BYTESPERBLOCK) ∧
      ((fsTell E st fd + L) / E.BYTESPERBLOCK * E.BYTESPERBLOCK + E.BYTESPERBLOCK
          ≤ I32_MAX →
        (∀ it, it ∈ its → 0 ≤ it.off ∧ it.off + (it.endBuff - it.startBuff) ≤ L) ∧
        (its.map (fun it => it.endBuff - it.startBuff)).sum = L)) := by
  constructor
  · intro hcs
    obtain ⟨buf1, st1, its, hrun, hit, hblk, hw⟩ :=
      fsRead_windows E st fd L buf hB hBM hc hcs hL hcL
    exact ⟨buf1, st1, its, hrun, hit, hblk,
      fun hex => passes_in_buffer its hB hc (le_min hL (by omega)) (hw hex)⟩
  · obtain ⟨st1, its, hrun, hit, hblk, hw⟩ := fsWrite_windows E st fd L buf hB hBM hc hL hcL
    exact ⟨st1, its, hrun, hit, hblk, fun hex => passes_in_buffer its hB hc hL (hw hex)⟩

/-- Witness of `copy_windows_in_bounds`: 600 bytes at cursor 500, read from a file of
2000 bytes or written. -/
theorem copy_windows_in_bounds_witness :
    (2 ≤ demoBfs.BYTESPERBLOCK ∧ demoBfs.BYTESPERBLOCK ≤ I32_MAX ∧
      0 ≤ fsTell demoBfs (demoFS 500 2000) 0 ∧ (0 : Int) ≤ 600 ∧
      fsTell demoBfs (demoFS 500 2000) 0 + 600 ≤ I32_MAX) ∧
    (∃ buf1 st1 its, fsRead demoBfs (demoFS 500 2000) 0 600 sevens = Result.ok (600, buf1) st1 ∧
      st1.iters = its ∧
      (∀ it, it ∈ its → 0 ≤ it.startBuff ∧ it.startBuff ≤ it.endBuff ∧ it.endBuff ≤ 512) ∧
      (∀ it, it ∈ its → 0 ≤ it.off ∧ it.off + (it.endBuff - it.startBuff) ≤ 600) ∧
      (its.map (fun it => it.endBuff - it.startBuff)).sum = 600) ∧
    (∃ st1 its, fsWrite demoBfs (demoFS 500 2000) 0 600 sevens = Result.ok 0 st1 ∧
      st1.iters = its ∧
      (∀ it, it ∈ its → 0 ≤ it.startBuff ∧ it.startBuff ≤ it.endBuff ∧ it.endBuff ≤ 512) ∧
      (∀ it, it ∈ its → 0 ≤ it.off ∧ it.off + (it.endBuff - it.startBuff) ≤ 600) ∧
      (its.map (fun it => it.endBuff - it.startBuff)).sum = 600) := by
  have h := copy_windows_in_bounds demoBfs (demoFS 500 2000) 0 600 sevens (by decide)
    (by decide) (by decide) (by decide) (by decide)
  obtain ⟨b1, s1, i1, r1, r2, r3, r4⟩ := h.1 (by decide)
  obtain ⟨s2, i2, w1, w2, w3, w4⟩ := h.2
  exact ⟨by decide, ⟨b1, s1, i1, r1, r2, r3, (r4 (by decide)).1, (r4 (by decide)).2⟩,
    ⟨s2, i2, w1, w2, w3, (w4 (by decide)).1, (w4 (by decide)).2⟩⟩

/-- C20 as stated fails: with the cursor at `2147483136`, the start of the last block
within `i32`, `fsRead(fd, 10, buf)` returns 10 after a single pass that copies
`endBuff - startBuff = 512` bytes to offset 0 of the caller's buffer: more than the
effective length 10, which is also not the sum of the lengths copied. -/
theorem copy_windows_in_bounds_counterexample :
    (0 ≤ fsTell demoBfs (demoFS 2147483136 2147483647) 0 ∧
      fsTell demoBfs (demoFS 2147483136 2147483647) 0
        ≤ fsSize demoBfs (demoFS 2147483136 2147483647) 0 ∧ (0 : Int) ≤ 10) ∧
    (fsRead demoBfs (demoFS 2147483136 2147483647) 0 10 sevens).val?.map Prod.fst
      = some 10 ∧
    (fsRead demoBfs (demoFS 2147483136 2147483647) 0 10 sevens).state.iters.map
        (fun it => (it.off, it.endBuff - it.startBuff)) = [(0, 512)] := by
  decide

end Fs
